import Mathlib

/-!
Verification of `media_organizer.py` (paraflu/media-organizer).

Shallow embedding: Python strings are modelled as `List Char`, byte strings as
`List Nat`, the filesystem as explicit state threaded through the organizer.
External libraries (hachoir, rawpy, piexif/PIL, hashlib, os, shutil) are
modelled at their interface, following how the source consumes them: each
per-file record carries the values those libraries would report for that file,
and fallible calls are `Option`-valued.  All definitions are fuel-structural so
that concrete runs evaluate inside `decide`.
-/

namespace MediaOrganizer

/-- Python `str`, modelled as a list of characters. -/
abbrev Str := List Char

/-- Python `str.lower()` (ASCII case folding suffices for the extension sets). -/
def lowerStr (s : Str) : Str := s.map Char.toLower

/-- Boolean membership in a list, used for Python `in` on sets of strings. -/
def memb {α : Type} [DecidableEq α] (a : α) (l : List α) : Bool := decide (a ∈ l)

/-- Python `str.endswith(suffix)`. -/
def endswith (s suffix : Str) : Bool := decide (suffix <:+ s)

/-- Python `os.path.join(a, b)` for a relative second component. -/
def pathJoin (a b : Str) : Str := a ++ "/".data ++ b

/-- Index of the last occurrence of a character (Python `str.rfind`, as used by
`os.path.splitext`), `none` when absent. -/
def rfind (c : Char) : Str → Option Nat
  | [] => none
  | a :: rest =>
    match rfind c rest with
    | some i => some (i + 1)
    | none => if a = c then some 0 else none

/-- Python `os.path.splitext` (posixpath): the extension starts at the last dot,
unless every character between the start of the basename and that dot is itself
a dot (so dotfiles such as `.jpg` have no extension). -/
def splitext (p : Str) : Str × Str :=
  match rfind '.' p with
  | none => (p, [])
  | some di =>
    let si : Nat :=
      match rfind '/' p with
      | none => 0
      | some j => j + 1
    if si ≤ di ∧ (List.range' si (di - si)).any (fun k => !(decide (p.get? k = some '.'))) then
      (p.take di, p.drop di)
    else (p, [])

/-- Decimal digit to character. -/
def digitCh (d : Nat) : Char := Char.ofNat (48 + d)

/-- Little-endian decimal digits of a positive number, fuel-structural. -/
def natToDecCore : Nat → Nat → List Char
  | 0, _ => []
  | _, 0 => []
  | fuel + 1, n => digitCh (n % 10) :: natToDecCore fuel (n / 10)

/-- Python `str(n)` / `f-string` rendering of a nonnegative integer in decimal. -/
def natToDec (n : Nat) : Str :=
  if n = 0 then ['0'] else (natToDecCore n n).reverse

/-- Python `f-string` `{n:02d}`: zero-pad to (at least) two digits. -/
def pad2 (n : Nat) : Str :=
  if n < 10 then '0' :: natToDec n else natToDec n

/-- Value of a little-endian digit-character list (proof device for the
injectivity of decimal rendering). -/
def decVal : List Char → Nat
  | [] => 0
  | c :: cs => (c.toNat - 48) + 10 * decVal cs

/-! ### Calendar dates

Python `datetime` values are modelled as a plain record.  The conversion from
filesystem timestamps (`datetime.fromtimestamp`) is modelled as a concrete
Gregorian conversion from seconds since the epoch (UTC; fractional seconds and
the local-timezone offset are outside the model, and timestamps are assumed to
land inside the range `datetime` can represent). -/

/-- A calendar date+time (Python `datetime.datetime`). -/
structure Date where
  year : Nat
  month : Nat
  day : Nat
  hour : Nat
  minute : Nat
  second : Nat
deriving DecidableEq

/-- Gregorian leap-year rule. -/
def isLeap (y : Nat) : Bool := (y % 4 = 0 ∧ ¬ y % 100 = 0) ∨ y % 400 = 0

/-- Lengths of the twelve months of year `y`. -/
def monthLengths (y : Nat) : List Nat :=
  [31, if isLeap y then 29 else 28, 31, 30, 31, 30, 31, 31, 30, 31, 30, 31]

/-- Number of days in month `m` of year `y` (31 for out-of-range `m`, which the
date parser rules out). -/
def daysInMonth (y m : Nat) : Nat := ((monthLengths y).get? (m - 1)).getD 31

/-- Walks years forward from 1970 consuming whole years of days; returns the
year together with the remaining zero-based day of year. -/
def yearFromDays : Nat → Nat → Nat → Nat × Nat
  | 0, y, d => (y, d)
  | fuel + 1, y, d =>
    let len := if isLeap y then 366 else 365
    if d < len then (y, d) else yearFromDays fuel (y + 1) (d - len)

/-- Walks the month-length table consuming whole months; returns the one-based
month and day. -/
def monthFromDayOfYear : List Nat → Nat → Nat → Nat × Nat
  | [], m, d => (m, d + 1)
  | len :: rest, m, d => if d < len then (m, d + 1) else monthFromDayOfYear rest (m + 1) (d - len)

/-- Python `datetime.fromtimestamp` on a whole-second timestamp (UTC model). -/
def fromtimestamp (t : Nat) : Date :=
  let days := t / 86400
  let rem := t % 86400
  let yd := yearFromDays (days + 1) 1970 days
  let md := monthFromDayOfYear (monthLengths yd.1) 1 yd.2
  { year := yd.1, month := md.1, day := md.2,
    hour := rem / 3600, minute := rem % 3600 / 60, second := rem % 60 }

/-! ### Parsing `YYYY:MM:DD HH:MM:SS`

Models `datetime.strptime(s, "%Y:%m:%d %H:%M:%S")`: four-digit year, one- or
two-digit remaining fields, and the validation the `datetime` constructor
performs (month 1–12, day within the month, time fields in range).  Any
mismatch yields `none` (Python: `ValueError`). -/

/-- Splits a string on a separator character. -/
def splitOnAux (c : Char) : Str → Str → List Str
  | [], acc => [acc.reverse]
  | a :: rest, acc =>
    if a = c then acc.reverse :: splitOnAux c rest []
    else splitOnAux c rest (a :: acc)

/-- Splits a string on a separator character (Python `str.split(c)`). -/
def splitOn (c : Char) (s : Str) : List Str := splitOnAux c s []

/-- Reads a string of decimal digits as a number; `none` if empty or non-digit. -/
def parseDigits : Str → Option Nat
  | [] => none
  | l => if l.all (fun c => decide ('0' ≤ c ∧ c ≤ '9')) then
           some (l.foldl (fun acc c => acc * 10 + (c.toNat - 48)) 0)
         else none

/-- Parses the literal textual pattern `YYYY:MM:DD HH:MM:SS` into a date. -/
def parseDateTime (s : Str) : Option Date :=
  match splitOn ' ' s with
  | [d, t] =>
    match splitOn ':' d, splitOn ':' t with
    | [ys, ms, ds], [hs, mins, ss] =>
      if ys.length = 4 ∧ 1 ≤ ms.length ∧ ms.length ≤ 2 ∧ 1 ≤ ds.length ∧ ds.length ≤ 2 ∧
         1 ≤ hs.length ∧ hs.length ≤ 2 ∧ 1 ≤ mins.length ∧ mins.length ≤ 2 ∧
         1 ≤ ss.length ∧ ss.length ≤ 2 then
        match parseDigits ys, parseDigits ms, parseDigits ds,
              parseDigits hs, parseDigits mins, parseDigits ss with
        | some y, some mo, some da, some h, some mi, some se =>
          if 1 ≤ y ∧ 1 ≤ mo ∧ mo ≤ 12 ∧ 1 ≤ da ∧ da ≤ daysInMonth y mo ∧
             h ≤ 23 ∧ mi ≤ 59 ∧ se ≤ 59 then
            some { year := y, month := mo, day := da, hour := h, minute := mi, second := se }
          else none
        | _, _, _, _, _, _ => none
      else none
    | _, _ => none
  | _ => none

/-! ### Extension sets and the format classifier (source lines 78–110, 216–226) -/

/-- Source `get_raw_extensions()`. -/
def get_raw_extensions : List Str :=
  [".cr2".data, ".cr3".data, ".nef".data, ".nrw".data, ".arw".data, ".srf".data,
   ".sr2".data, ".raf".data, ".orf".data, ".rw2".data, ".pef".data, ".dng".data,
   ".raw".data, ".rwl".data, ".iiq".data, ".3fr".data, ".fff".data]

/-- Source `get_video_extensions()`. -/
def get_video_extensions : List Str :=
  [".mp4".data, ".mov".data, ".avi".data, ".wmv".data, ".flv".data, ".mkv".data,
   ".m4v".data, ".mpg".data, ".mpeg".data, ".3gp".data, ".webm".data, ".mts".data,
   ".m2ts".data, ".ts".data, ".vob".data, ".ogv".data, ".dv".data, ".qt".data]

/-- The inline image extensions of `is_media_file`. -/
def image_extensions : List Str :=
  [".jpg".data, ".jpeg".data, ".png".data, ".gif".data, ".bmp".data, ".tiff".data]

/-- The `media_extensions` set built inside `is_media_file`. -/
def media_extensions : List Str :=
  image_extensions ++ get_raw_extensions ++ get_video_extensions

/-- Source `is_media_file`: `file_path.lower().endswith(tuple(media_extensions))`. -/
def is_media_file (file_path : Str) : Bool :=
  media_extensions.any (fun e => endswith (lowerStr file_path) e)

/-- Modelled from the spec (claim C2 refinement target): the classifier the spec
describes, deciding membership of the splitext extension, lower-cased, in the
union of the three sets. -/
def is_media_file_spec (file_path : Str) : Bool :=
  memb (lowerStr (splitext file_path).2) media_extensions

/-! ### Per-file metadata environment

One record per discovered file carries what the external metadata libraries
would report for it, plus flags for the modelled per-file failure points
(unreadable content, failing copy/move, failing sidecar write). -/

/-- What `hachoir` metadata exposes for a parseable container: the three date
fields tried by `get_video_date` and the three info fields of `get_video_info`. -/
structure VideoMeta where
  creation_date : Option Date
  last_modification : Option Date
  date : Option Date
  duration : Option Str
  width : Option Nat
  height : Option Nat
  mime_type : Option Str
deriving DecidableEq

/-- What `rawpy` exposes: the `raw_metadata` tag mapping (present only when the
container opens and has that attribute). -/
structure RawMeta where
  tags : List (Str × Str)
deriving DecidableEq

/-- A file yielded by the `os.walk` of the source tree, with its environment. -/
structure FileEntry where
  root : Str
  filename : Str
  content : List Nat
  video_meta : Option VideoMeta
  raw_meta : Option RawMeta
  exif_datetime : Option Str
  fstat : Option (Nat × Nat)
  hash_ok : Bool
  transfer_ok : Bool
  sidecar_ok : Bool
deriving DecidableEq

/-- Association-list lookup (Python `dict` access / `in`). -/
def alookup {α β : Type} [DecidableEq α] : List (α × β) → α → Option β
  | [], _ => none
  | (k, v) :: rest, a => if a = k then some v else alookup rest a

/-! ### Source functions over the environment (lines 112–214) -/

/-- Source `get_video_date`: first truthy field among `creation_date`,
`last_modification`, `date`; `none` when the parser or metadata fails. -/
def get_video_date (vm : Option VideoMeta) : Option Date :=
  match vm with
  | none => none
  | some m => m.creation_date <|> m.last_modification <|> m.date

/-- The RAW branch of `get_file_date`: tags tried in order, an absent or
unparseable tag falls through to the next. -/
def raw_date (rm : Option RawMeta) : Option Date :=
  match rm with
  | none => none
  | some m =>
    ((alookup m.tags "DateTimeOriginal".data).bind parseDateTime) <|>
    ((alookup m.tags "CreateDate".data).bind parseDateTime) <|>
    ((alookup m.tags "ModifyDate".data).bind parseDateTime)

/-- The EXIF branch of `get_file_date`: the decoded `DateTime` tag, parsed; a
parse failure is swallowed by the branch-local `except`. -/
def exif_date (ed : Option Str) : Option Date := ed.bind parseDateTime

/-- Source `get_file_date` (lines 134–177): category-gated strategy chain with
filesystem fallback, the whole body wrapped in a `try` whose handler returns
`datetime.now()` (the `now` argument). -/
def get_file_date (e : FileEntry) (now : Date) : Date :=
  let file_extension := lowerStr (splitext (pathJoin e.root e.filename)).2
  let v := if memb file_extension get_video_extensions then get_video_date e.video_meta else none
  match v with
  | some d => d
  | none =>
    let r := if memb file_extension get_raw_extensions then raw_date e.raw_meta else none
    match r with
    | some d => d
    | none =>
      let x := if memb file_extension [".jpg".data, ".jpeg".data, ".tiff".data] then
                 exif_date e.exif_datetime
               else none
      match x with
      | some d => d
      | none =>
        match e.fstat with
        | some (creation_time, modify_time) => fromtimestamp (Nat.min creation_time modify_time)
        | none => now

/-- The category-gated video strategy of `get_file_date`, as a unit. -/
def videoStrategy (e : FileEntry) : Option Date :=
  if memb (lowerStr (splitext (pathJoin e.root e.filename)).2) get_video_extensions
  then get_video_date e.video_meta else none

/-- The category-gated RAW strategy of `get_file_date`, as a unit. -/
def rawStrategy (e : FileEntry) : Option Date :=
  if memb (lowerStr (splitext (pathJoin e.root e.filename)).2) get_raw_extensions
  then raw_date e.raw_meta else none

/-- The category-gated EXIF strategy of `get_file_date`, as a unit. -/
def exifStrategy (e : FileEntry) : Option Date :=
  if memb (lowerStr (splitext (pathJoin e.root e.filename)).2)
      [".jpg".data, ".jpeg".data, ".tiff".data]
  then exif_date e.exif_datetime else none

/-- Source `get_video_info` (lines 179–206): the `duration`, `resolution`,
`format` fields, each included only when the metadata exposes it, in that
order; `[]` when the parser fails (for example because the file no longer
exists at the given path). -/
def get_video_info (vm : Option VideoMeta) : List (Str × Str) :=
  match vm with
  | none => []
  | some m =>
    (match m.duration with
     | some d => [("duration".data, d)]
     | none => []) ++
    (match m.width, m.height with
     | some w, some h => [("resolution".data, natToDec w ++ "x".data ++ natToDec h)]
     | _, _ => []) ++
    (match m.mime_type with
     | some mt => [("format".data, mt)]
     | none => [])

/-! ### Content identifier (source lines 208–214)

`get_file_hash` streams the content in 4096-byte chunks through `hashlib.md5`.
The digest itself is an external library; modelled from the spec: the spec
directs that identical content yields identical fingerprints and differing
content differing fingerprints ("collision probability treated as negligible
... treat as certain"), so the digest state is modelled as the accumulated byte
sequence, making the fingerprint an injective image of the content. -/

/-- Modelled from the spec: one `hash_md5.update(chunk)` step of the external
`hashlib.md5` digest (collision-free digest model). -/
def md5_update (acc : List Nat) (chunk : List Nat) : List Nat := acc ++ chunk

/-- The chunk sequence produced by `iter(lambda: f.read(4096), b"")`:
4096-byte reads until the read comes back empty. -/
def readChunks : Nat → List Nat → List (List Nat)
  | _, [] => []
  | 0, _ => []
  | fuel + 1, l => l.take 4096 :: readChunks fuel (l.drop 4096)

/-- Source `get_file_hash`: fold the chunked content through the digest. -/
def get_file_hash (e : FileEntry) : List Nat :=
  (readChunks e.content.length e.content).foldl md5_update []

/-! ### The organizer (source lines 228–350)

State threaded through the walk: statistics, the `processed_files` hash map,
the destination filesystem (path to file content), the set of created
destination directories, and the source paths removed by `--move`.  Python
exceptions at the modelled failure points surface as `Except`, carrying the
state as already mutated at the point of the raise; the per-file handler of the
walk loop converts them into the `errors` counter. -/

/-- The sidecar text written by lines 316–318: one `f"{key}: {value}\n"` line
per field. -/
def render_info (info : List (Str × Str)) : Str :=
  (info.map (fun kv => kv.1 ++ ": ".data ++ kv.2 ++ "\n".data)).flatten

/-- Statistics dictionary of `organize_media`. -/
structure Stats where
  total_files : Nat
  raw_files : Nat
  video_files : Nat
  image_files : Nat
  duplicates : Nat
  errors : Nat
  space_saved : Nat
deriving DecidableEq

/-- The all-zero initial statistics. -/
def Stats.zero : Stats := ⟨0, 0, 0, 0, 0, 0, 0⟩

/-- A file in the destination tree: a placed media file or a written text
sidecar. -/
inductive DestFile where
  | media (content : List Nat)
  | text (content : Str)
deriving DecidableEq

/-- Run-wide organizer state. -/
structure OrgState where
  stats : Stats
  processed : List (List Nat × Str)
  dest : List (Str × DestFile)
  destDirs : List Str
  removedSrc : List Str
deriving DecidableEq

/-- Run-wide configuration: destination root, `--move` flag, and the wall-clock
time `datetime.now()` would return during this run. -/
structure Config where
  destRoot : Str
  move : Bool
  now : Date

/-- Writing a file at a path (`shutil.copy2`/`shutil.move` target, or
`open(path, "w")`): overwrites an existing entry, otherwise adds one. -/
def setFile (fs : List (Str × DestFile)) (p : Str) (v : DestFile) : List (Str × DestFile) :=
  if (alookup fs p).isSome then
    fs.map (fun kv => if kv.1 = p then (p, v) else kv)
  else (p, v) :: fs

/-- `os.makedirs(d, exist_ok=True)`: records the directory, a no-op when it
already exists. -/
def mkdirs (dirs : List Str) (d : Str) : List Str :=
  if memb d dirs then dirs else d :: dirs

/-- The collision candidate `f"{base_name}_{counter}{extension}"`. -/
def cand (base ext : Str) (counter : Nat) : Str :=
  base ++ ('_' :: natToDec counter) ++ ext

/-- The `while os.path.exists(...)` probe loop (lines 296–300), fuel-structural:
starting from the original filename with `counter = 1`, as long as the current
candidate exists, move to the next numbered candidate.  The organizer supplies
fuel `|dest| + 2`, which is proved sufficient to reach the first free
candidate. -/
def newNameLoop (taken : Str → Bool) (base ext : Str) : Nat → Nat → Str → Str
  | 0, _, cur => cur
  | fuel + 1, counter, cur =>
    if taken cur then newNameLoop taken base ext fuel (counter + 1) (cand base ext counter)
    else cur

/-- Lines 259–269: count the media file and bump its category counter (the
extension here is the lower-cased splitext extension of the filename). -/
def countFile (st : OrgState) (e : FileEntry) : OrgState :=
  let st := { st with stats.total_files := st.stats.total_files + 1 }
  let extension := lowerStr (splitext e.filename).2
  if memb extension get_raw_extensions then
    { st with stats.raw_files := st.stats.raw_files + 1 }
  else if memb extension get_video_extensions then
    { st with stats.video_files := st.stats.video_files + 1 }
  else
    { st with stats.image_files := st.stats.image_files + 1 }

/-- Lines 275–279: the duplicate branch — count it and save the bytes, touch
nothing else. -/
def dupFile (st : OrgState) (e : FileEntry) : OrgState :=
  { st with stats.duplicates := st.stats.duplicates + 1,
            stats.space_saved := st.stats.space_saved + e.content.length }

/-- The destination directory `destination_dir/year/month/day` (lines 285–290). -/
def destDirFor (cfg : Config) (d : Date) : Str :=
  pathJoin (pathJoin (pathJoin cfg.destRoot (natToDec d.year)) (pad2 d.month)) (pad2 d.day)

/-- Lines 281–321: everything after the duplicate check for a fresh file — date
resolution, directory creation, collision-free naming, copy or move, the video
sidecar, and the hash registration.  An `error` result is a raised exception,
carrying the state as mutated so far. -/
def placeFile (cfg : Config) (st : OrgState) (e : FileEntry) (file_hash : List Nat) :
    Except OrgState OrgState :=
  let source_path := pathJoin e.root e.filename
  let file_date := get_file_date e cfg.now
  let dest_dir := destDirFor cfg file_date
  let st := { st with destDirs := mkdirs st.destDirs dest_dir }
  let se := splitext e.filename
  let base_name := se.1
  let extension := se.2
  let new_filename :=
    newNameLoop (fun c => (alookup st.dest (pathJoin dest_dir c)).isSome)
      base_name extension (st.dest.length + 2) 1 e.filename
  let destination_path := pathJoin dest_dir new_filename
  if ¬ e.transfer_ok then .error st else
  let st :=
    if cfg.move then
      { st with dest := setFile st.dest destination_path (.media e.content),
                removedSrc := source_path :: st.removedSrc }
    else
      { st with dest := setFile st.dest destination_path (.media e.content) }
  let finish : OrgState → Except OrgState OrgState := fun s =>
    .ok { s with processed := (file_hash, destination_path) :: s.processed }
  if memb extension get_video_extensions then
    let video_info :=
      get_video_info (if memb source_path st.removedSrc then none else e.video_meta)
    if video_info ≠ [] then
      if ¬ e.sidecar_ok then .error st else
      let info_path := pathJoin dest_dir (base_name ++ "_info.txt".data)
      finish { st with dest := setFile st.dest info_path (.text (render_info video_info)) }
    else finish st
  else finish st

/-- Per-file body of the walk loop (the `try` block, lines 254–323). -/
def processEntry (cfg : Config) (st : OrgState) (e : FileEntry) : Except OrgState OrgState :=
  if ¬ is_media_file e.filename then .ok st else
  let st := countFile st e
  if ¬ e.hash_ok then .error st else
  let file_hash := get_file_hash e
  if (alookup st.processed file_hash).isSome then .ok (dupFile st e)
  else placeFile cfg st e file_hash

/-- One iteration of the walk loop: the `except` handler (lines 325–327) turns
a raised exception into an `errors` increment and the loop continues. -/
def stepFile (cfg : Config) (st : OrgState) (e : FileEntry) : OrgState :=
  match processEntry cfg st e with
  | .ok s => s
  | .error s => { s with stats.errors := s.stats.errors + 1 }

/-- The state `organize_media` starts from: empty statistics, empty hash map,
the pre-existing destination tree, the destination root created. -/
def initState (cfg : Config) (dest0 : List (Str × DestFile)) : OrgState :=
  { stats := Stats.zero, processed := [], dest := dest0,
    destDirs := [cfg.destRoot], removedSrc := [] }

/-- Source `organize_media`: fold the walk over the per-file step. -/
def organize_media (cfg : Config) (dest0 : List (Str × DestFile))
    (files : List FileEntry) : OrgState :=
  files.foldl (stepFile cfg) (initState cfg dest0)

/-- The collision-free name the placement step settles on for `e` given the
destination state `st`. -/
def probeName (cfg : Config) (st : OrgState) (e : FileEntry) : Str :=
  newNameLoop
    (fun c => (alookup st.dest (pathJoin (destDirFor cfg (get_file_date e cfg.now)) c)).isSome)
    (splitext e.filename).1 (splitext e.filename).2 (st.dest.length + 2) 1 e.filename

/-- The full destination path the placement step writes the media file to. -/
def plannedPath (cfg : Config) (st : OrgState) (e : FileEntry) : Str :=
  pathJoin (destDirFor cfg (get_file_date e cfg.now)) (probeName cfg st e)

/-- The sidecar path `dest_dir/base_name_info.txt`, derived from the original
stem. -/
def infoPath (cfg : Config) (e : FileEntry) : Str :=
  pathJoin (destDirFor cfg (get_file_date e cfg.now))
    ((splitext e.filename).1 ++ "_info.txt".data)

/-- The video info the sidecar branch obtains for `e`: gated on the raw-case
splitext extension, and read from the source path after the copy or move. -/
def sidecarInfo (cfg : Config) (st : OrgState) (e : FileEntry) : List (Str × Str) :=
  if memb (splitext e.filename).2 get_video_extensions then
    get_video_info
      (if memb (pathJoin e.root e.filename)
          (if cfg.move then pathJoin e.root e.filename :: st.removedSrc else st.removedSrc)
       then none else e.video_meta)
  else []

/-- The state right after the copy/move succeeds, before the sidecar branch
(proof device for the raising sidecar write). -/
def transferResult (cfg : Config) (st : OrgState) (e : FileEntry) : OrgState :=
  { st with destDirs := mkdirs st.destDirs (destDirFor cfg (get_file_date e cfg.now)),
            dest := setFile st.dest (plannedPath cfg st e) (.media e.content),
            removedSrc := if cfg.move then pathJoin e.root e.filename :: st.removedSrc
                          else st.removedSrc }

/-- The straightline image of the success path of `placeFile` (proof device:
`placeFile` is proved equal to `.ok` of this state whenever the transfer and
the sidecar write do not raise). -/
def placeResult (cfg : Config) (st : OrgState) (e : FileEntry) (fh : List Nat) : OrgState :=
  let dest_dir := destDirFor cfg (get_file_date e cfg.now)
  let dp := plannedPath cfg st e
  let vinfo := sidecarInfo cfg st e
  let d1 := setFile st.dest dp (.media e.content)
  { stats := st.stats,
    processed := (fh, dp) :: st.processed,
    dest := if vinfo = [] then d1
            else setFile d1 (pathJoin dest_dir ((splitext e.filename).1 ++ "_info.txt".data))
                   (.text (render_info vinfo)),
    destDirs := mkdirs st.destDirs dest_dir,
    removedSrc := if cfg.move then pathJoin e.root e.filename :: st.removedSrc
                  else st.removedSrc }

/-! ### Concrete inputs used by witnesses -/

/-- A jpg with an EXIF date, readable and copyable. -/
def exJpgA : FileEntry :=
  { root := "src".data, filename := "a.jpg".data, content := [7, 7], video_meta := none,
    raw_meta := none, exif_datetime := some "2023:05:10 14:30:00".data, fstat := some (0, 0),
    hash_ok := true, transfer_ok := true, sidecar_ok := true }

/-- A byte-identical copy of `exJpgA` under a different name. -/
def exJpgB : FileEntry := { exJpgA with filename := "b.jpg".data }

/-- A video whose container metadata exposes a creation date and all three info
fields. -/
def exVid : FileEntry :=
  { root := "src".data, filename := "clip.mp4".data, content := [1],
    video_meta := some { creation_date := some ⟨2023, 5, 10, 14, 30, 0⟩,
                         last_modification := none, date := none,
                         duration := some "0:00:05".data, width := some 640,
                         height := some 480, mime_type := some "video/mp4".data },
    raw_meta := none, exif_datetime := none, fstat := some (0, 0),
    hash_ok := true, transfer_ok := true, sidecar_ok := true }

/-- The same video with an upper-case extension. -/
def exVidUpper : FileEntry := { exVid with filename := "clip.MP4".data }

/-- A jpg with no usable metadata and a failing filesystem stat. -/
def exBare : FileEntry :=
  { root := "src".data, filename := "x.jpg".data, content := [], video_meta := none,
    raw_meta := none, exif_datetime := none, fstat := none,
    hash_ok := true, transfer_ok := true, sidecar_ok := true }

/-- A png (no metadata strategy applies) with distinct stat timestamps. -/
def exPng : FileEntry :=
  { root := "src".data, filename := "x.png".data, content := [3], video_meta := none,
    raw_meta := none, exif_datetime := none, fstat := some (100, 50),
    hash_ok := true, transfer_ok := true, sidecar_ok := true }

/-- A media file whose content cannot be read for hashing. -/
def exBadHash : FileEntry := { exJpgA with filename := "c.jpg".data, hash_ok := false }

/-- Copy-mode configuration with destination root `d`. -/
def exCfgCopy : Config := { destRoot := "d".data, move := false, now := ⟨2024, 1, 1, 0, 0, 0⟩ }

/-- A mid-run state whose date directory already holds `a.jpg` and `a_1.jpg`. -/
def exStBusy : OrgState :=
  { stats := Stats.zero, processed := [],
    dest := [("d/2023/05/10/a.jpg".data, .media [9]), ("d/2023/05/10/a_1.jpg".data, .media [8])],
    destDirs := ["d".data], removedSrc := [] }

/-- A mid-run state whose date directory already holds `clip.mp4` and an older
sidecar `clip_info.txt`. -/
def exStClip : OrgState :=
  { stats := Stats.zero, processed := [],
    dest := [("d/2023/05/10/clip.mp4".data, .media [9]),
             ("d/2023/05/10/clip_info.txt".data, .text "old".data)],
    destDirs := ["d".data], removedSrc := [] }

/-- Move-mode configuration with destination root `d`. -/
def exCfgMove : Config := { exCfgCopy with move := true }

/-! ### Decimal rendering lemmas -/

theorem digitCh_toNat {d : Nat} (h : d < 10) : (digitCh d).toNat = 48 + d := by
  interval_cases d <;> rfl

theorem decVal_natToDecCore : ∀ fuel n, n ≤ fuel → decVal (natToDecCore fuel n) = n := by
  intro fuel
  induction fuel with
  | zero =>
    intro n h
    have hn : n = 0 := by omega
    subst hn; rfl
  | succ f ih =>
    intro n h
    by_cases hn : n = 0
    · subst hn; rfl
    · have hstep : natToDecCore (f + 1) n = digitCh (n % 10) :: natToDecCore f (n / 10) := by
        cases n with
        | zero => exact absurd rfl hn
        | succ m => rfl
      have hdivlt : n / 10 < n := Nat.div_lt_self (by omega) (by omega)
      have hdiv : n / 10 ≤ f := by omega
      have hmod := Nat.mod_add_div n 10
      rw [hstep]
      show (digitCh (n % 10)).toNat - 48 + 10 * decVal (natToDecCore f (n / 10)) = n
      rw [digitCh_toNat (Nat.mod_lt _ (by omega)), ih (n / 10) hdiv]
      omega

theorem natToDecCore_ne_nil {fuel n : Nat} (h1 : 0 < n) (h2 : n ≤ fuel) :
    natToDecCore fuel n ≠ [] := by
  cases fuel with
  | zero => omega
  | succ f =>
    cases n with
    | zero => omega
    | succ m => simp [natToDecCore]

theorem natToDec_ne_nil (n : Nat) : natToDec n ≠ [] := by
  by_cases hn : n = 0
  · subst hn; simp [natToDec]
  · simp only [natToDec, if_neg hn]
    intro hrev
    exact natToDecCore_ne_nil (by omega) le_rfl (List.reverse_eq_nil_iff.mp hrev)

theorem natToDec_inj {a b : Nat} (h : natToDec a = natToDec b) : a = b := by
  by_cases ha : a = 0 <;> by_cases hb : b = 0
  · omega
  · exfalso
    simp only [natToDec, if_pos ha, if_neg hb] at h
    have hcore : natToDecCore b b = ['0'] := by
      have := congrArg List.reverse h
      simpa using this.symm
    have := decVal_natToDecCore b b le_rfl
    rw [hcore] at this
    simp [decVal] at this
    omega
  · exfalso
    simp only [natToDec, if_neg ha, if_pos hb] at h
    have hcore : natToDecCore a a = ['0'] := by
      have := congrArg List.reverse h
      simpa using this
    have := decVal_natToDecCore a a le_rfl
    rw [hcore] at this
    simp [decVal] at this
    omega
  · simp only [natToDec, if_neg ha, if_neg hb] at h
    have hcore : natToDecCore a a = natToDecCore b b := by
      have := congrArg List.reverse h
      simpa using this
    have h1 := decVal_natToDecCore a a le_rfl
    have h2 := decVal_natToDecCore b b le_rfl
    rw [hcore] at h1
    omega

theorem natToDecCore_digits : ∀ fuel n c, c ∈ natToDecCore fuel n →
    48 ≤ c.toNat ∧ c.toNat ≤ 57 := by
  intro fuel
  induction fuel with
  | zero => intro n c hc; simp [natToDecCore] at hc
  | succ f ih =>
    intro n c hc
    cases n with
    | zero => simp [natToDecCore] at hc
    | succ m =>
      simp only [natToDecCore, List.mem_cons] at hc
      rcases hc with hc | hc
      · subst hc
        rw [digitCh_toNat (Nat.mod_lt _ (by omega))]
        omega
      · exact ih _ _ hc

theorem natToDec_digits {n : Nat} {c : Char} (hc : c ∈ natToDec n) :
    48 ≤ c.toNat ∧ c.toNat ≤ 57 := by
  by_cases hn : n = 0
  · subst hn
    simp [natToDec] at hc
    subst hc; decide
  · simp only [natToDec, if_neg hn, List.mem_reverse] at hc
    exact natToDecCore_digits _ _ _ hc

theorem cand_inj {base ext : Str} {j k : Nat} (h : cand base ext j = cand base ext k) :
    j = k := by
  unfold cand at h
  rw [List.append_assoc, List.append_assoc] at h
  have h1 := List.append_cancel_left h
  have h2 := List.append_cancel_right h1
  exact natToDec_inj (List.cons.inj h2).2

theorem pathJoin_inj_right {a b c : Str} (h : pathJoin a b = pathJoin a c) : b = c := by
  unfold pathJoin at h
  rw [List.append_assoc, List.append_assoc] at h
  exact List.append_cancel_left (List.append_cancel_left h)

/-! ### Association list and filesystem-write lemmas -/

theorem alookup_cons {α β : Type} [DecidableEq α] (k : α) (w : β) (rest : List (α × β))
    (a : α) : alookup ((k, w) :: rest) a = if a = k then some w else alookup rest a := rfl

theorem alookup_map_set {β : Type} :
    ∀ (fs : List (Str × β)) (p : Str) (v w : β), alookup fs p = some w →
    alookup (fs.map (fun kv => if kv.1 = p then (p, v) else kv)) p = some v := by
  intro fs p v w
  induction fs with
  | nil => intro h; simp [alookup] at h
  | cons kv rest ih =>
    obtain ⟨k, u⟩ := kv
    intro h
    rw [alookup_cons] at h
    by_cases hk : k = p
    · rw [List.map_cons, show (if (k, u).1 = p then (p, v) else (k, u)) = (p, v) by
        simp [hk], alookup_cons, if_pos rfl]
    · rw [if_neg (fun hpk => hk hpk.symm)] at h
      rw [List.map_cons, show (if (k, u).1 = p then (p, v) else (k, u)) = (k, u) by
        simp [hk], alookup_cons, if_neg (fun hpk => hk hpk.symm)]
      exact ih h

theorem alookup_map_set_ne {β : Type} :
    ∀ (fs : List (Str × β)) (p q : Str) (v : β), q ≠ p →
    alookup (fs.map (fun kv => if kv.1 = p then (p, v) else kv)) q = alookup fs q := by
  intro fs p q v hne
  induction fs with
  | nil => rfl
  | cons kv rest ih =>
    obtain ⟨k, u⟩ := kv
    by_cases hk : k = p
    · rw [List.map_cons, show (if (k, u).1 = p then (p, v) else (k, u)) = (p, v) by
        simp [hk], alookup_cons, alookup_cons, if_neg hne, if_neg (hk ▸ hne)]
      exact ih
    · rw [List.map_cons, show (if (k, u).1 = p then (p, v) else (k, u)) = (k, u) by
        simp [hk], alookup_cons, alookup_cons]
      by_cases hqk : q = k
      · rw [if_pos hqk, if_pos hqk]
      · rw [if_neg hqk, if_neg hqk]
        exact ih

theorem alookup_setFile_self (fs : List (Str × DestFile)) (p : Str) (v : DestFile) :
    alookup (setFile fs p v) p = some v := by
  unfold setFile
  by_cases h : (alookup fs p).isSome
  · rw [if_pos h]
    obtain ⟨w, hw⟩ := Option.isSome_iff_exists.mp h
    exact alookup_map_set fs p v w hw
  · rw [if_neg h]
    simp [alookup_cons]

theorem alookup_setFile_ne (fs : List (Str × DestFile)) (p q : Str) (v : DestFile)
    (hne : q ≠ p) : alookup (setFile fs p v) q = alookup fs q := by
  unfold setFile
  by_cases h : (alookup fs p).isSome
  · rw [if_pos h]
    exact alookup_map_set_ne fs p q v hne
  · rw [if_neg h, alookup_cons, if_neg hne]

theorem setFile_fresh (fs : List (Str × DestFile)) (p : Str) (v : DestFile)
    (h : alookup fs p = none) : setFile fs p v = (p, v) :: fs := by
  unfold setFile
  rw [if_neg (by simp [h])]

theorem alookup_mem_keys {β : Type} :
    ∀ (fs : List (Str × β)) (a : Str), (alookup fs a).isSome → a ∈ fs.map Prod.fst := by
  intro fs a
  induction fs with
  | nil => intro h; simp [alookup] at h
  | cons kv rest ih =>
    obtain ⟨k, u⟩ := kv
    intro h
    rw [alookup_cons] at h
    by_cases hk : a = k
    · rw [List.map_cons]
      exact hk ▸ List.mem_cons_self _ _
    · rw [if_neg hk] at h
      rw [List.map_cons]
      exact List.mem_cons_of_mem _ (ih h)

/-! ### Chunked-read lemmas -/

theorem readChunks_flatten : ∀ fuel l, l.length ≤ fuel → (readChunks fuel l).flatten = l := by
  intro fuel
  induction fuel with
  | zero =>
    intro l h
    have : l = [] := List.length_eq_zero.mp (by omega)
    subst this; rfl
  | succ f ih =>
    intro l h
    cases l with
    | nil => rfl
    | cons a rest =>
      show ((a :: rest).take 4096 :: readChunks f ((a :: rest).drop 4096)).flatten = a :: rest
      have hlen : (a :: rest).length = rest.length + 1 := rfl
      rw [List.flatten_cons, ih _ (by rw [List.length_drop]; omega)]
      exact List.take_append_drop _ _

theorem readChunks_sizes : ∀ fuel l c, c ∈ readChunks fuel l →
    0 < c.length ∧ c.length ≤ 4096 := by
  intro fuel
  induction fuel with
  | zero => intro l c hc; cases l <;> simp [readChunks] at hc
  | succ f ih =>
    intro l c hc
    cases l with
    | nil => simp [readChunks] at hc
    | cons a rest =>
      simp only [readChunks, List.mem_cons] at hc
      rcases hc with hc | hc
      · subst hc
        have hlen : (a :: rest).length = rest.length + 1 := rfl
        rw [List.length_take]
        omega
      · exact ih _ _ hc

theorem readChunks_full : ∀ fuel l pre c post, readChunks fuel l = pre ++ c :: post →
    post ≠ [] → c.length = 4096 := by
  intro fuel
  induction fuel with
  | zero => intro l pre c post h hp; exfalso; cases l <;> simp [readChunks] at h
  | succ f ih =>
    intro l pre c post h hp
    cases l with
    | nil => exfalso; simp [readChunks] at h
    | cons a rest =>
      rw [show readChunks (f + 1) (a :: rest) =
        (a :: rest).take 4096 :: readChunks f ((a :: rest).drop 4096) from rfl] at h
      cases pre with
      | nil =>
        simp only [List.nil_append, List.cons.injEq] at h
        obtain ⟨hc, hrec⟩ := h
        have hdrop : (a :: rest).drop 4096 ≠ [] := by
          intro hd
          rw [hd] at hrec
          exact hp (by cases post <;> simp_all [readChunks])
        have hlen : 4096 < (a :: rest).length := by
          by_contra hle
          exact hdrop (List.drop_eq_nil_of_le (by omega))
        rw [← hc, List.length_take]
        omega
      | cons p pre2 =>
        simp only [List.cons_append, List.cons.injEq] at h
        exact ih _ _ _ _ h.2 hp

/-! ### Collision-probe loop lemmas -/

theorem newNameLoop_free (taken : Str → Bool) (base ext : Str) (fuel counter : Nat)
    (cur : Str) (h : taken cur = false) :
    newNameLoop taken base ext fuel counter cur = cur := by
  cases fuel <;> simp [newNameLoop, h]

theorem newNameLoop_go (taken : Str → Bool) (base ext : Str) :
    ∀ fuel c k, c ≤ k → k - c < fuel →
    (∀ j, c ≤ j → j < k → taken (cand base ext j) = true) →
    taken (cand base ext k) = false →
    newNameLoop taken base ext fuel (c + 1) (cand base ext c) = cand base ext k := by
  intro fuel
  induction fuel with
  | zero => intro c k h1 h2 _ _; omega
  | succ f ih =>
    intro c k hck hfuel hall hfree
    by_cases hc : c = k
    · subst hc
      exact newNameLoop_free taken base ext _ _ _ hfree
    · have hlt : c < k := by omega
      have htc : taken (cand base ext c) = true := hall c le_rfl hlt
      show (if taken (cand base ext c) then
              newNameLoop taken base ext f (c + 1 + 1) (cand base ext (c + 1))
            else cand base ext c) = cand base ext k
      rw [htc, if_pos rfl]
      exact ih (c + 1) k (by omega) (by omega) (fun j hj1 hj2 => hall j (by omega) hj2) hfree

theorem exists_free_cand (dest : List (Str × DestFile)) (dd base ext : Str) :
    ∃ k, 1 ≤ k ∧ k ≤ dest.length + 1 ∧
      (alookup dest (pathJoin dd (cand base ext k))).isSome = false := by
  by_contra hcon
  push_neg at hcon
  have hall : ∀ k ∈ Finset.Icc 1 (dest.length + 1),
      pathJoin dd (cand base ext k) ∈ dest.map Prod.fst := by
    intro k hk
    rw [Finset.mem_Icc] at hk
    apply alookup_mem_keys
    have hne := hcon k hk.1 hk.2
    cases hb : (alookup dest (pathJoin dd (cand base ext k))).isSome
    · exact absurd hb hne
    · rfl
  have hinj : Set.InjOn (fun k => pathJoin dd (cand base ext k))
      (Finset.Icc 1 (dest.length + 1)) := by
    intro i _ j _ hij
    exact cand_inj (pathJoin_inj_right hij)
  have hcard := Finset.card_le_card_of_injOn _
    (fun k hk => List.mem_toFinset.mpr (hall k hk)) hinj
  rw [Nat.card_Icc] at hcard
  have hle := List.toFinset_card_le (dest.map Prod.fst)
  rw [List.length_map] at hle
  omega

/-- The first free candidate reached by the probe loop with the fuel the
organizer supplies: the original name when free, otherwise the least-indexed
numbered candidate that is free. -/
theorem newName_spec (dest : List (Str × DestFile)) (dd base ext filename : Str) :
    (((alookup dest (pathJoin dd filename)).isSome = false) →
      newNameLoop (fun c => (alookup dest (pathJoin dd c)).isSome) base ext
        (dest.length + 2) 1 filename = filename) ∧
    (((alookup dest (pathJoin dd filename)).isSome = true) →
      ∃ k, 1 ≤ k ∧
        (alookup dest (pathJoin dd (cand base ext k))).isSome = false ∧
        (∀ j, 1 ≤ j → j < k →
          (alookup dest (pathJoin dd (cand base ext j))).isSome = true) ∧
        newNameLoop (fun c => (alookup dest (pathJoin dd c)).isSome) base ext
          (dest.length + 2) 1 filename = cand base ext k) := by
  set taken : Str → Bool := fun c => (alookup dest (pathJoin dd c)).isSome with htaken
  constructor
  · intro h
    exact newNameLoop_free taken base ext _ _ _ h
  · intro h
    obtain ⟨k0, hk01, hk0n, hk0free⟩ := exists_free_cand dest dd base ext
    have hP : ∃ j, taken (cand base ext (j + 1)) = false :=
      ⟨k0 - 1, by rw [Nat.sub_add_cancel hk01]; exact hk0free⟩
    refine ⟨Nat.find hP + 1, by omega, Nat.find_spec hP, ?_, ?_⟩
    · intro j hj1 hj2
      have hmin := Nat.find_min hP (m := j - 1) (by omega)
      have hj : j - 1 + 1 = j := by omega
      rw [hj] at hmin
      cases hb : taken (cand base ext j)
      · exact absurd hb hmin
      · exact hb
    · have hkle : Nat.find hP + 1 ≤ k0 := by
        have := Nat.find_min' hP (m := k0 - 1)
          (by rw [Nat.sub_add_cancel hk01]; exact hk0free)
        omega
      have h' : taken filename = true := h
      show newNameLoop taken base ext (dest.length + 1 + 1) 1 filename = _
      rw [show newNameLoop taken base ext (dest.length + 1 + 1) 1 filename =
        (if taken filename then
          newNameLoop taken base ext (dest.length + 1) (1 + 1) (cand base ext 1)
        else filename) from rfl, if_pos h']
      exact newNameLoop_go taken base ext (dest.length + 1) 1 (Nat.find hP + 1)
        (by omega) (by omega)
        (fun j hj1 hj2 => by
          have hmin := Nat.find_min hP (m := j - 1) (by omega)
          have hj : j - 1 + 1 = j := by omega
          rw [hj] at hmin
          cases hb : taken (cand base ext j)
          · exact absurd hb hmin
          · rfl)
        (Nat.find_spec hP)

/-! ### splitext structure lemmas and sidecar-name disjointness -/

theorem splitext_recompose (p : Str) : (splitext p).1 ++ (splitext p).2 = p := by
  unfold splitext
  cases h : rfind '.' p with
  | none => simp
  | some di =>
    dsimp only
    split
    · exact List.take_append_drop di p
    · simp

theorem rfind_get : ∀ (l : Str) (c : Char) (i : Nat), rfind c l = some i →
    l.get? i = some c := by
  intro l
  induction l with
  | nil => intro c i h; simp [rfind] at h
  | cons a rest ih =>
    intro c i h
    simp only [rfind] at h
    cases hr : rfind c rest with
    | some j =>
      rw [hr] at h
      cases h
      exact ih c j hr
    | none =>
      rw [hr] at h
      by_cases hac : a = c
      · rw [if_pos hac] at h
        cases h
        simp [hac]
      · rw [if_neg hac] at h
        cases h

theorem splitext_ext_shape (p : Str) :
    (splitext p).2 = [] ∨ ∃ rest, (splitext p).2 = '.' :: rest := by
  unfold splitext
  cases h : rfind '.' p with
  | none => exact Or.inl rfl
  | some di =>
    dsimp only
    split
    · have hget := rfind_get p '.' di h
      have hdrop : (p.drop di).get? 0 = some '.' := by
        rw [List.get?_drop]
        simpa using hget
      cases hd : p.drop di with
      | nil => rw [hd] at hdrop; simp at hdrop
      | cons c rest =>
        rw [hd] at hdrop
        simp only [List.get?] at hdrop
        right
        refine ⟨rest, ?_⟩
        show (List.take di p, c :: rest).2 = '.' :: rest
        injection hdrop with hc
        rw [hc]
    · exact Or.inl rfl

theorem orig_name_ne_info (p : Str) : p ≠ (splitext p).1 ++ "_info.txt".data := by
  intro h
  have hrec := splitext_recompose p
  rcases splitext_ext_shape p with hx | ⟨rest, hx⟩
  · rw [hx, List.append_nil] at hrec
    rw [hrec] at h
    have hlen := congrArg List.length h
    simp at hlen
  · rw [hx] at hrec
    have h2 := hrec.trans h
    have h3 := List.append_cancel_left h2
    rw [show "_info.txt".data = '_' :: "info.txt".data from rfl] at h3
    exact absurd (List.cons.inj h3).1 (by decide)

theorem cand_ne_info (base ext : Str) (k : Nat) :
    cand base ext k ≠ base ++ "_info.txt".data := by
  intro h
  unfold cand at h
  rw [List.append_assoc] at h
  have h1 := List.append_cancel_left h
  rw [List.cons_append, show "_info.txt".data = '_' :: "info.txt".data from rfl] at h1
  have h2 := (List.cons.inj h1).2
  cases hd : natToDec k with
  | nil => exact natToDec_ne_nil k hd
  | cons c cs =>
    rw [hd, List.cons_append] at h2
    have hc : c = 'i' := (List.cons.inj h2).1
    have hmem : c ∈ natToDec k := by rw [hd]; exact List.mem_cons_self _ _
    have := natToDec_digits hmem
    rw [hc] at this
    revert this
    decide

/-- The probe loop returns either the original filename or a numbered
candidate. -/
theorem newName_cases (dest : List (Str × DestFile)) (dd base ext filename : Str) :
    newNameLoop (fun c => (alookup dest (pathJoin dd c)).isSome) base ext
        (dest.length + 2) 1 filename = filename ∨
    ∃ k, newNameLoop (fun c => (alookup dest (pathJoin dd c)).isSome) base ext
        (dest.length + 2) 1 filename = cand base ext k := by
  obtain ⟨h1, h2⟩ := newName_spec dest dd base ext filename
  cases hb : (alookup dest (pathJoin dd filename)).isSome
  · exact Or.inl (h1 hb)
  · obtain ⟨k, _, _, _, hk⟩ := h2 hb
    exact Or.inr ⟨k, hk⟩

/-! ### Per-branch facts about the organizer step -/

theorem countFile_processed (st : OrgState) (e : FileEntry) :
    (countFile st e).processed = st.processed := by
  simp only [countFile]; split_ifs <;> rfl

theorem countFile_dest (st : OrgState) (e : FileEntry) :
    (countFile st e).dest = st.dest := by
  simp only [countFile]; split_ifs <;> rfl

theorem countFile_destDirs (st : OrgState) (e : FileEntry) :
    (countFile st e).destDirs = st.destDirs := by
  simp only [countFile]; split_ifs <;> rfl

theorem countFile_removedSrc (st : OrgState) (e : FileEntry) :
    (countFile st e).removedSrc = st.removedSrc := by
  simp only [countFile]; split_ifs <;> rfl

theorem countFile_counts (st : OrgState) (e : FileEntry) :
    (countFile st e).stats.total_files = st.stats.total_files + 1 ∧
    (countFile st e).stats.duplicates = st.stats.duplicates ∧
    (countFile st e).stats.errors = st.stats.errors ∧
    (countFile st e).stats.space_saved = st.stats.space_saved ∧
    (memb (lowerStr (splitext e.filename).2) get_raw_extensions = true →
      (countFile st e).stats.raw_files = st.stats.raw_files + 1 ∧
      (countFile st e).stats.video_files = st.stats.video_files ∧
      (countFile st e).stats.image_files = st.stats.image_files) ∧
    (memb (lowerStr (splitext e.filename).2) get_raw_extensions = false →
     memb (lowerStr (splitext e.filename).2) get_video_extensions = true →
      (countFile st e).stats.raw_files = st.stats.raw_files ∧
      (countFile st e).stats.video_files = st.stats.video_files + 1 ∧
      (countFile st e).stats.image_files = st.stats.image_files) ∧
    (memb (lowerStr (splitext e.filename).2) get_raw_extensions = false →
     memb (lowerStr (splitext e.filename).2) get_video_extensions = false →
      (countFile st e).stats.raw_files = st.stats.raw_files ∧
      (countFile st e).stats.video_files = st.stats.video_files ∧
      (countFile st e).stats.image_files = st.stats.image_files + 1) := by
  unfold countFile
  by_cases h1 : memb (lowerStr (splitext e.filename).2) get_raw_extensions
  · simp [h1]
  · by_cases h2 : memb (lowerStr (splitext e.filename).2) get_video_extensions
    · simp [h1, h2]
    · simp [h1, h2]

/-- The success path of `placeFile`. -/
theorem placeFile_eq (cfg : Config) (st : OrgState) (e : FileEntry) (fh : List Nat)
    (ht : e.transfer_ok = true) (hs : e.sidecar_ok = true) :
    placeFile cfg st e fh = .ok (placeResult cfg st e fh) := by
  unfold placeFile placeResult
  simp only [ht, hs, not_true, if_false]
  by_cases hvid : memb (splitext e.filename).2 get_video_extensions
  · by_cases hmove : cfg.move
    · simp only [hvid, hmove, if_true, ite_true]
      split_ifs <;> simp_all [probeName, plannedPath, sidecarInfo, get_video_info]
    · simp only [hvid, hmove, ite_false]
      split_ifs <;> simp_all [probeName, plannedPath, sidecarInfo, get_video_info]
  · by_cases hmove : cfg.move
    · simp only [hvid, hmove, if_true, ite_true, ite_false]
      split_ifs <;> simp_all [probeName, plannedPath, sidecarInfo, get_video_info]
    · simp only [hvid, hmove, ite_false]
      split_ifs <;> simp_all [probeName, plannedPath, sidecarInfo, get_video_info]

theorem placeResult_stats (cfg : Config) (st : OrgState) (e : FileEntry) (fh : List Nat) :
    (placeResult cfg st e fh).stats = st.stats := rfl

theorem placeResult_processed (cfg : Config) (st : OrgState) (e : FileEntry) (fh : List Nat) :
    (placeResult cfg st e fh).processed = (fh, plannedPath cfg st e) :: st.processed := rfl

theorem placeResult_destDirs (cfg : Config) (st : OrgState) (e : FileEntry) (fh : List Nat) :
    (placeResult cfg st e fh).destDirs =
      mkdirs st.destDirs (destDirFor cfg (get_file_date e cfg.now)) := rfl

theorem placeResult_removedSrc (cfg : Config) (st : OrgState) (e : FileEntry) (fh : List Nat) :
    (placeResult cfg st e fh).removedSrc =
      (if cfg.move then pathJoin e.root e.filename :: st.removedSrc else st.removedSrc) := rfl

theorem placeResult_dest (cfg : Config) (st : OrgState) (e : FileEntry) (fh : List Nat) :
    (placeResult cfg st e fh).dest =
      (if sidecarInfo cfg st e = []
       then setFile st.dest (plannedPath cfg st e) (.media e.content)
       else setFile (setFile st.dest (plannedPath cfg st e) (.media e.content))
              (infoPath cfg e) (.text (render_info (sidecarInfo cfg st e)))) := rfl

theorem plannedPath_ne_infoPath (cfg : Config) (st : OrgState) (e : FileEntry) :
    plannedPath cfg st e ≠ infoPath cfg e := by
  intro h
  have h2 := pathJoin_inj_right h
  rcases newName_cases st.dest (destDirFor cfg (get_file_date e cfg.now))
      (splitext e.filename).1 (splitext e.filename).2 e.filename with hcase | ⟨k, hcase⟩
  · unfold probeName at h2
    rw [hcase] at h2
    exact orig_name_ne_info e.filename h2
  · unfold probeName at h2
    rw [hcase] at h2
    exact cand_ne_info _ _ _ h2

theorem placeResult_media_placed (cfg : Config) (st : OrgState) (e : FileEntry) (fh : List Nat) :
    alookup (placeResult cfg st e fh).dest (plannedPath cfg st e) =
      some (.media e.content) := by
  rw [placeResult_dest]
  by_cases hvi : sidecarInfo cfg st e = []
  · rw [if_pos hvi]
    exact alookup_setFile_self _ _ _
  · rw [if_neg hvi, alookup_setFile_ne _ _ _ _ (plannedPath_ne_infoPath cfg st e)]
    exact alookup_setFile_self _ _ _

theorem placeResult_sidecar_written (cfg : Config) (st : OrgState) (e : FileEntry)
    (fh : List Nat) (hvi : sidecarInfo cfg st e ≠ []) :
    alookup (placeResult cfg st e fh).dest (infoPath cfg e) =
      some (.text (render_info (sidecarInfo cfg st e))) := by
  rw [placeResult_dest, if_neg hvi]
  exact alookup_setFile_self _ _ _

/-! ### Routing through `processEntry` and `stepFile` -/

theorem stepFile_nonmedia (cfg : Config) (st : OrgState) (e : FileEntry)
    (hm : is_media_file e.filename = false) : stepFile cfg st e = st := by
  unfold stepFile processEntry
  rw [hm]
  simp

theorem stepFile_hashfail (cfg : Config) (st : OrgState) (e : FileEntry)
    (hm : is_media_file e.filename = true) (hh : e.hash_ok = false) :
    stepFile cfg st e =
      { countFile st e with
        stats := { (countFile st e).stats with
                   errors := (countFile st e).stats.errors + 1 } } := by
  unfold stepFile processEntry
  rw [hm, hh]
  simp

theorem stepFile_dup (cfg : Config) (st : OrgState) (e : FileEntry)
    (hm : is_media_file e.filename = true) (hh : e.hash_ok = true)
    (hdup : (alookup st.processed (get_file_hash e)).isSome = true) :
    stepFile cfg st e = dupFile (countFile st e) e := by
  unfold stepFile processEntry
  rw [hm, hh]
  simp only [not_true, if_false, Bool.not_true, ite_false]
  rw [countFile_processed, hdup]
  simp

theorem stepFile_place (cfg : Config) (st : OrgState) (e : FileEntry)
    (hm : is_media_file e.filename = true) (hh : e.hash_ok = true)
    (hfresh : alookup st.processed (get_file_hash e) = none)
    (ht : e.transfer_ok = true) (hs : e.sidecar_ok = true) :
    stepFile cfg st e = placeResult cfg (countFile st e) e (get_file_hash e) := by
  unfold stepFile processEntry
  rw [hm, hh]
  simp only [not_true, if_false, Bool.not_true, ite_false]
  rw [countFile_processed, hfresh]
  simp only [Option.isSome_none, Bool.false_eq_true, ite_false, if_false]
  rw [placeFile_eq cfg (countFile st e) e (get_file_hash e) ht hs]

theorem sidecarInfo_countFile (cfg : Config) (st : OrgState) (e f : FileEntry) :
    sidecarInfo cfg (countFile st f) e = sidecarInfo cfg st e := by
  unfold sidecarInfo
  rw [countFile_removedSrc]

theorem probeName_countFile (cfg : Config) (st : OrgState) (e f : FileEntry) :
    probeName cfg (countFile st f) e = probeName cfg st e := by
  unfold probeName
  rw [countFile_dest]

theorem plannedPath_countFile (cfg : Config) (st : OrgState) (e f : FileEntry) :
    plannedPath cfg (countFile st f) e = plannedPath cfg st e := by
  unfold plannedPath
  rw [probeName_countFile]

theorem dupFile_spec (st : OrgState) (e : FileEntry) :
    (dupFile st e).stats.duplicates = st.stats.duplicates + 1 ∧
    (dupFile st e).stats.space_saved = st.stats.space_saved + e.content.length ∧
    (dupFile st e).stats.total_files = st.stats.total_files ∧
    (dupFile st e).stats.raw_files = st.stats.raw_files ∧
    (dupFile st e).stats.video_files = st.stats.video_files ∧
    (dupFile st e).stats.image_files = st.stats.image_files ∧
    (dupFile st e).stats.errors = st.stats.errors ∧
    (dupFile st e).processed = st.processed ∧
    (dupFile st e).dest = st.dest ∧
    (dupFile st e).destDirs = st.destDirs ∧
    (dupFile st e).removedSrc = st.removedSrc := by
  unfold dupFile
  exact ⟨rfl, rfl, rfl, rfl, rfl, rfl, rfl, rfl, rfl, rfl, rfl⟩

/-- A failing copy/move raises after the directory creation. -/
theorem placeFile_transferfail (cfg : Config) (st : OrgState) (e : FileEntry) (fh : List Nat)
    (ht : e.transfer_ok = false) :
    placeFile cfg st e fh =
      .error { st with
               destDirs := mkdirs st.destDirs (destDirFor cfg (get_file_date e cfg.now)) } := by
  unfold placeFile
  simp [ht]

/-- When no sidecar is due, the sidecar flag is never consulted. -/
theorem placeFile_eq_nosidecar (cfg : Config) (st : OrgState) (e : FileEntry) (fh : List Nat)
    (ht : e.transfer_ok = true) (hvi : sidecarInfo cfg st e = []) :
    placeFile cfg st e fh = .ok (placeResult cfg st e fh) := by
  unfold placeFile placeResult
  simp only [ht, not_true, if_false]
  by_cases hvid : memb (splitext e.filename).2 get_video_extensions
  · unfold sidecarInfo at hvi
    rw [if_pos hvid] at hvi
    by_cases hmove : cfg.move
    · simp only [hvid, hmove, if_true, ite_true]
      simp_all [probeName, plannedPath, sidecarInfo, get_video_info]
    · simp only [hvid, hmove, ite_false]
      simp_all [probeName, plannedPath, sidecarInfo, get_video_info]
  · by_cases hmove : cfg.move
    · simp only [hvid, hmove, if_true, ite_true, ite_false]
      simp_all [probeName, plannedPath, sidecarInfo, get_video_info]
    · simp only [hvid, hmove, ite_false]
      simp_all [probeName, plannedPath, sidecarInfo, get_video_info]

/-- A failing sidecar write raises after the transfer. -/
theorem placeFile_sidecarfail (cfg : Config) (st : OrgState) (e : FileEntry) (fh : List Nat)
    (ht : e.transfer_ok = true) (hs : e.sidecar_ok = false)
    (hvi : sidecarInfo cfg st e ≠ []) :
    placeFile cfg st e fh = .error (transferResult cfg st e) := by
  have hvid : memb (splitext e.filename).2 get_video_extensions = true := by
    by_contra hv
    apply hvi
    unfold sidecarInfo
    rw [if_neg hv]
  unfold placeFile transferResult
  simp only [ht, hs, not_true, if_false]
  unfold sidecarInfo at hvi
  rw [if_pos hvid] at hvi
  by_cases hmove : cfg.move
  · simp only [hvid, hmove, if_true, ite_true]
    simp_all [probeName, plannedPath, get_video_info]
  · simp only [hvid, hmove, ite_false]
    simp_all [probeName, plannedPath, get_video_info]

/-- General success-path step: the sidecar flag only matters when a sidecar is
actually due. -/
theorem stepFile_place2 (cfg : Config) (st : OrgState) (e : FileEntry)
    (hm : is_media_file e.filename = true) (hh : e.hash_ok = true)
    (hfresh : alookup st.processed (get_file_hash e) = none)
    (ht : e.transfer_ok = true)
    (hok : e.sidecar_ok = true ∨ sidecarInfo cfg st e = []) :
    stepFile cfg st e = placeResult cfg (countFile st e) e (get_file_hash e) := by
  rcases hok with hs | hvi
  · exact stepFile_place cfg st e hm hh hfresh ht hs
  · unfold stepFile processEntry
    rw [hm, hh]
    simp only [not_true, if_false, Bool.not_true, ite_false]
    rw [countFile_processed, hfresh]
    simp only [Option.isSome_none, Bool.false_eq_true, ite_false, if_false]
    rw [placeFile_eq_nosidecar cfg (countFile st e) e (get_file_hash e) ht
      (by rw [sidecarInfo_countFile]; exact hvi)]

theorem stepFile_transferfail (cfg : Config) (st : OrgState) (e : FileEntry)
    (hm : is_media_file e.filename = true) (hh : e.hash_ok = true)
    (hfresh : alookup st.processed (get_file_hash e) = none)
    (ht : e.transfer_ok = false) :
    stepFile cfg st e =
      { countFile st e with
        destDirs := mkdirs (countFile st e).destDirs (destDirFor cfg (get_file_date e cfg.now)),
        stats := { (countFile st e).stats with
                   errors := (countFile st e).stats.errors + 1 } } := by
  unfold stepFile processEntry
  rw [hm, hh]
  simp only [not_true, if_false, Bool.not_true, ite_false]
  rw [countFile_processed, hfresh]
  simp only [Option.isSome_none, Bool.false_eq_true, ite_false, if_false]
  rw [placeFile_transferfail cfg (countFile st e) e (get_file_hash e) ht]
  simp [countFile_processed, countFile_dest, countFile_removedSrc]

theorem stepFile_sidecarfail (cfg : Config) (st : OrgState) (e : FileEntry)
    (hm : is_media_file e.filename = true) (hh : e.hash_ok = true)
    (hfresh : alookup st.processed (get_file_hash e) = none)
    (ht : e.transfer_ok = true) (hs : e.sidecar_ok = false)
    (hvi : sidecarInfo cfg st e ≠ []) :
    stepFile cfg st e =
      { transferResult cfg (countFile st e) e with
        stats := { (transferResult cfg (countFile st e) e).stats with
                   errors := (transferResult cfg (countFile st e) e).stats.errors + 1 } } := by
  unfold stepFile processEntry
  rw [hm, hh]
  simp only [not_true, if_false, Bool.not_true, ite_false]
  rw [countFile_processed, hfresh]
  simp only [Option.isSome_none, Bool.false_eq_true, ite_false, if_false]
  rw [placeFile_sidecarfail cfg (countFile st e) e (get_file_hash e) ht hs
    (by rw [sidecarInfo_countFile]; exact hvi)]

/-- Case cascade over the outcomes of one step: the four media counters are
those of `countFile`, whatever the outcome. -/
theorem stepFile_counts_media (cfg : Config) (st : OrgState) (e : FileEntry)
    (hm : is_media_file e.filename = true) :
    (stepFile cfg st e).stats.total_files = (countFile st e).stats.total_files ∧
    (stepFile cfg st e).stats.raw_files = (countFile st e).stats.raw_files ∧
    (stepFile cfg st e).stats.video_files = (countFile st e).stats.video_files ∧
    (stepFile cfg st e).stats.image_files = (countFile st e).stats.image_files := by
  cases hhb : e.hash_ok
  · rw [stepFile_hashfail cfg st e hm hhb]
    exact ⟨rfl, rfl, rfl, rfl⟩
  · cases hdup : (alookup st.processed (get_file_hash e)).isSome
    · have hfresh : alookup st.processed (get_file_hash e) = none := by
        cases hx : alookup st.processed (get_file_hash e)
        · rfl
        · rw [hx] at hdup; simp at hdup
      cases htb : e.transfer_ok
      · rw [stepFile_transferfail cfg st e hm hhb hfresh htb]
        exact ⟨rfl, rfl, rfl, rfl⟩
      · by_cases hvi : sidecarInfo cfg st e = []
        · rw [stepFile_place2 cfg st e hm hhb hfresh htb (Or.inr hvi)]
          rw [placeResult_stats]
          exact ⟨rfl, rfl, rfl, rfl⟩
        · cases hsb : e.sidecar_ok
          · rw [stepFile_sidecarfail cfg st e hm hhb hfresh htb hsb hvi]
            exact ⟨rfl, rfl, rfl, rfl⟩
          · rw [stepFile_place2 cfg st e hm hhb hfresh htb (Or.inl hsb)]
            rw [placeResult_stats]
            exact ⟨rfl, rfl, rfl, rfl⟩
    · rw [stepFile_dup cfg st e hm hhb hdup]
      obtain ⟨_, _, h3, h4, h5, h6, _, _, _, _, _⟩ := dupFile_spec (countFile st e) e
      exact ⟨h3, h4, h5, h6⟩

/-- A `processed_files` binding, once made, survives every later step. -/
theorem stepFile_processed_mono (cfg : Config) (st : OrgState) (e : FileEntry)
    (h : List Nat) (d : Str) (hd : alookup st.processed h = some d) :
    alookup (stepFile cfg st e).processed h = some d := by
  cases hmb : is_media_file e.filename
  · rw [stepFile_nonmedia cfg st e hmb]; exact hd
  · cases hhb : e.hash_ok
    · rw [stepFile_hashfail cfg st e hmb hhb]
      show alookup (countFile st e).processed h = some d
      rw [countFile_processed]; exact hd
    · cases hdup : (alookup st.processed (get_file_hash e)).isSome
      · have hfresh : alookup st.processed (get_file_hash e) = none := by
          cases hx : alookup st.processed (get_file_hash e)
          · rfl
          · rw [hx] at hdup; simp at hdup
        have hne : h ≠ get_file_hash e := by
          intro hcon
          rw [hcon, hfresh] at hd
          cases hd
        cases htb : e.transfer_ok
        · rw [stepFile_transferfail cfg st e hmb hhb hfresh htb]
          show alookup (countFile st e).processed h = some d
          rw [countFile_processed]; exact hd
        · by_cases hvi : sidecarInfo cfg st e = []
          · rw [stepFile_place2 cfg st e hmb hhb hfresh htb (Or.inr hvi)]
            rw [placeResult_processed, alookup_cons, if_neg hne, countFile_processed]
            exact hd
          · cases hsb : e.sidecar_ok
            · rw [stepFile_sidecarfail cfg st e hmb hhb hfresh htb hsb hvi]
              show alookup (transferResult cfg (countFile st e) e).processed h = some d
              show alookup (countFile st e).processed h = some d
              rw [countFile_processed]; exact hd
            · rw [stepFile_place2 cfg st e hmb hhb hfresh htb (Or.inl hsb)]
              rw [placeResult_processed, alookup_cons, if_neg hne, countFile_processed]
              exact hd
      · rw [stepFile_dup cfg st e hmb hhb hdup]
        show alookup (countFile st e).processed h = some d
        rw [countFile_processed]; exact hd

theorem foldl_processed_mono (cfg : Config) :
    ∀ (ys : List FileEntry) (st : OrgState) (h : List Nat) (d : Str),
    alookup st.processed h = some d →
    alookup ((ys.foldl (stepFile cfg) st)).processed h = some d := by
  intro ys
  induction ys with
  | nil => intro st h d hd; exact hd
  | cons e rest ih =>
    intro st h d hd
    exact ih _ h d (stepFile_processed_mono cfg st e h d hd)

/-- Errors are never counted inside the per-file body itself: whichever way it
ends, the `errors` counter is what it was when the file was picked up.  (The
increment happens only in the handler of the walk loop.) -/
theorem processEntry_errors (cfg : Config) (st : OrgState) (e : FileEntry) :
    (∀ s, processEntry cfg st e = .ok s → s.stats.errors = st.stats.errors) ∧
    (∀ s, processEntry cfg st e = .error s → s.stats.errors = st.stats.errors) := by
  obtain ⟨_, _, hcerr, _, _, _, _⟩ := countFile_counts st e
  cases hmb : is_media_file e.filename
  · constructor
    · intro s h
      unfold processEntry at h
      rw [hmb] at h
      simp only [Bool.false_eq_true, not_false_iff, if_true] at h
      cases h
      rfl
    · intro s h
      unfold processEntry at h
      rw [hmb] at h
      simp only [Bool.false_eq_true, not_false_iff, if_true] at h
      cases h
  · cases hhb : e.hash_ok
    · constructor
      · intro s h
        unfold processEntry at h
        rw [hmb, hhb] at h
        simp only [not_true, if_false, Bool.false_eq_true, not_false_iff, if_true] at h
        cases h
      · intro s h
        unfold processEntry at h
        rw [hmb, hhb] at h
        simp only [not_true, if_false, Bool.false_eq_true, not_false_iff, if_true] at h
        cases h
        exact hcerr
    · cases hdup : (alookup st.processed (get_file_hash e)).isSome
      · have hfresh : alookup st.processed (get_file_hash e) = none := by
          cases hx : alookup st.processed (get_file_hash e)
          · rfl
          · rw [hx] at hdup; simp at hdup
        have hroute : processEntry cfg st e =
            placeFile cfg (countFile st e) e (get_file_hash e) := by
          unfold processEntry
          rw [hmb, hhb]
          simp only [not_true, if_false, Bool.not_true, ite_false]
          rw [countFile_processed, hfresh]
          simp
        cases htb : e.transfer_ok
        · rw [hroute, placeFile_transferfail cfg (countFile st e) e (get_file_hash e) htb]
          constructor
          · intro s h; cases h
          · intro s h; cases h; exact hcerr
        · by_cases hvi : sidecarInfo cfg (countFile st e) e = []
          · rw [hroute, placeFile_eq_nosidecar cfg (countFile st e) e (get_file_hash e) htb hvi]
            constructor
            · intro s h
              cases h
              rw [placeResult_stats]
              exact hcerr
            · intro s h; cases h
          · cases hsb : e.sidecar_ok
            · rw [hroute,
                placeFile_sidecarfail cfg (countFile st e) e (get_file_hash e) htb hsb hvi]
              constructor
              · intro s h; cases h
              · intro s h
                cases h
                exact hcerr
            · rw [hroute, placeFile_eq cfg (countFile st e) e (get_file_hash e) htb hsb]
              constructor
              · intro s h
                cases h
                rw [placeResult_stats]
                exact hcerr
              · intro s h; cases h
      · have hroute : processEntry cfg st e = .ok (dupFile (countFile st e) e) := by
          unfold processEntry
          rw [hmb, hhb]
          simp only [not_true, if_false, Bool.not_true, ite_false]
          rw [countFile_processed, hdup]
          simp
        rw [hroute]
        constructor
        · intro s h
          cases h
          obtain ⟨_, _, _, _, _, _, hde, _, _, _, _⟩ := dupFile_spec (countFile st e) e
          rw [hde]
          exact hcerr
        · intro s h; cases h

/-- Counter invariant: one step preserves `total = raw + video + image`. -/
theorem stepFile_counts_inv (cfg : Config) (st : OrgState) (e : FileEntry)
    (hinv : st.stats.total_files =
      st.stats.raw_files + st.stats.video_files + st.stats.image_files) :
    (stepFile cfg st e).stats.total_files =
      (stepFile cfg st e).stats.raw_files + (stepFile cfg st e).stats.video_files +
      (stepFile cfg st e).stats.image_files := by
  cases hmb : is_media_file e.filename
  · rw [stepFile_nonmedia cfg st e hmb]; exact hinv
  · obtain ⟨h1, h2, h3, h4⟩ := stepFile_counts_media cfg st e hmb
    obtain ⟨hc1, _, _, _, hraw, hvid, himg⟩ := countFile_counts st e
    rw [h1, h2, h3, h4, hc1]
    cases hr : memb (lowerStr (splitext e.filename).2) get_raw_extensions
    · cases hv : memb (lowerStr (splitext e.filename).2) get_video_extensions
      · obtain ⟨i1, i2, i3⟩ := himg hr hv
        rw [i1, i2, i3]; omega
      · obtain ⟨i1, i2, i3⟩ := hvid hr hv
        rw [i1, i2, i3]; omega
    · obtain ⟨i1, i2, i3⟩ := hraw hr
      rw [i1, i2, i3]; omega

/-- Counter invariant along any prefix of the walk. -/
theorem organize_counts_inv (cfg : Config) (dest0 : List (Str × DestFile))
    (xs : List FileEntry) :
    (organize_media cfg dest0 xs).stats.total_files =
      (organize_media cfg dest0 xs).stats.raw_files +
      (organize_media cfg dest0 xs).stats.video_files +
      (organize_media cfg dest0 xs).stats.image_files := by
  suffices hgen : ∀ (l : List FileEntry) (st : OrgState),
      st.stats.total_files =
        st.stats.raw_files + st.stats.video_files + st.stats.image_files →
      (l.foldl (stepFile cfg) st).stats.total_files =
        (l.foldl (stepFile cfg) st).stats.raw_files +
        (l.foldl (stepFile cfg) st).stats.video_files +
        (l.foldl (stepFile cfg) st).stats.image_files by
    exact hgen xs (initState cfg dest0) rfl
  intro l
  induction l with
  | nil => intro st h; exact h
  | cons e rest ih =>
    intro st h
    exact ih _ (stepFile_counts_inv cfg st e h)

/-- The resolver is the first-success composition of the three gated
strategies, with the filesystem fallback and the wall-clock default. -/
theorem get_file_date_chain (e : FileEntry) (now : Date) :
    get_file_date e now =
      (videoStrategy e <|> rawStrategy e <|> exifStrategy e).getD
        (match e.fstat with
         | some (c, m) => fromtimestamp (Nat.min c m)
         | none => now) := by
  unfold get_file_date videoStrategy rawStrategy exifStrategy
  dsimp only
  cases h1 : (if memb (lowerStr (splitext (pathJoin e.root e.filename)).2) get_video_extensions
      then get_video_date e.video_meta else none) with
  | some d => simp
  | none =>
    cases h2 : (if memb (lowerStr (splitext (pathJoin e.root e.filename)).2) get_raw_extensions
        then raw_date e.raw_meta else none) with
    | some d => simp
    | none =>
      cases h3 : (if memb (lowerStr (splitext (pathJoin e.root e.filename)).2)
          [".jpg".data, ".jpeg".data, ".tiff".data]
          then exif_date e.exif_datetime else none) with
      | some d => simp
      | none =>
        cases hf : e.fstat with
        | some cm => obtain ⟨c, m⟩ := cm; simp
        | none => simp

theorem memb_iff {α : Type} [DecidableEq α] (a : α) (l : List α) :
    memb a l = true ↔ a ∈ l := by
  unfold memb
  exact decide_eq_true_iff

theorem mem_mkdirs_self (dirs : List Str) (d : Str) : d ∈ mkdirs dirs d := by
  unfold mkdirs
  by_cases h : memb d dirs = true
  · rw [if_pos h]
    exact (memb_iff d dirs).mp h
  · rw [if_neg h]
    exact List.mem_cons_self _ _

theorem mkdirs_idem (dirs : List Str) (d : Str) : mkdirs (mkdirs dirs d) d = mkdirs dirs d := by
  have h := mem_mkdirs_self dirs d
  show (if memb d (mkdirs dirs d) = true then mkdirs dirs d else d :: mkdirs dirs d) = _
  rw [if_pos ((memb_iff _ _).mpr h)]

theorem get_file_hash_content (e1 e2 : FileEntry) (h : e1.content = e2.content) :
    get_file_hash e1 = get_file_hash e2 := by
  unfold get_file_hash
  rw [h]

/-! ### The claims -/

/-- C2, counterexample: the claim says the classifier accepts exactly the
filenames whose splitext extension, lower-cased, lies in the union of the three
sets.  The dotfile `.jpg` is accepted by the code (a lower-cased `endswith`
test) although its splitext extension is empty. -/
theorem c2_counterexample :
    is_media_file ".jpg".data = true ∧ is_media_file_spec ".jpg".data = false := by
  decide

/-- C2, amended: the classifier accepts a filename iff its lower-cased form has
some dotted extension of the union as a suffix; membership of the lower-cased
splitext extension in the union is sufficient but not necessary (dotfile-style
names such as `.jpg` are also accepted).  The classifier is a pure function of
the filename string. -/
theorem c2_amended (p : Str) :
    (is_media_file p = true ↔ ∃ e, e ∈ media_extensions ∧ e <:+ lowerStr p) ∧
    (is_media_file_spec p = true → is_media_file p = true) := by
  constructor
  · unfold is_media_file endswith
    rw [List.any_eq_true]
    constructor
    · rintro ⟨e, he, hd⟩
      exact ⟨e, he, of_decide_eq_true hd⟩
    · rintro ⟨e, he, hs⟩
      exact ⟨e, he, decide_eq_true hs⟩
  · intro hsp
    unfold is_media_file_spec at hsp
    have hmem : lowerStr (splitext p).2 ∈ media_extensions := (memb_iff _ _).mp hsp
    have hsuf : (splitext p).2 <:+ p := ⟨(splitext p).1, splitext_recompose p⟩
    obtain ⟨t, ht⟩ := hsuf
    have hsufl : lowerStr (splitext p).2 <:+ lowerStr p :=
      ⟨lowerStr t, by unfold lowerStr; rw [← List.map_append, ht]⟩
    unfold is_media_file endswith
    rw [List.any_eq_true]
    exact ⟨lowerStr (splitext p).2, hmem, decide_eq_true hsufl⟩

/-- C2, witness for the amended claim at a concrete input. -/
theorem c2_amended_witness :
    is_media_file_spec "photo.JPG".data = true ∧ is_media_file "photo.JPG".data = true :=
  ⟨by decide, (c2_amended "photo.JPG".data).2 (by decide)⟩

/-- C4: the Date Resolver always returns a date, equal to the first success of
the gated strategy chain, falling back to the filesystem timestamps, and to the
current wall-clock time when even the stat fails; every strategy failure falls
through rather than raising. -/
theorem c4_date_resolver_total (e : FileEntry) (now : Date) :
    get_file_date e now =
      (videoStrategy e <|> rawStrategy e <|> exifStrategy e).getD
        (match e.fstat with
         | some (c, m) => fromtimestamp (Nat.min c m)
         | none => now) ∧
    (videoStrategy e = none → rawStrategy e = none → exifStrategy e = none →
      e.fstat = none → get_file_date e now = now) := by
  refine ⟨get_file_date_chain e now, ?_⟩
  intro h1 h2 h3 h4
  rw [get_file_date_chain e now, h1, h2, h3, h4]
  rfl

/-- C4, witness: a file with no metadata and a failing stat resolves to the
current wall-clock time. -/
theorem c4_witness :
    videoStrategy exBare = none ∧ rawStrategy exBare = none ∧ exifStrategy exBare = none ∧
    exBare.fstat = none ∧
    get_file_date exBare ⟨2024, 1, 1, 0, 0, 0⟩ = ⟨2024, 1, 1, 0, 0, 0⟩ :=
  ⟨by decide, by decide, by decide, by decide,
   (c4_date_resolver_total exBare ⟨2024, 1, 1, 0, 0, 0⟩).2
     (by decide) (by decide) (by decide) (by decide)⟩

/-- C5: when every category-gated strategy falls through and the stat succeeds,
the resolved date is the filesystem fallback, the minimum of the creation and
modification timestamps converted to a calendar date+time. -/
theorem c5_fs_fallback_min (e : FileEntry) (now : Date) (c m : Nat)
    (h1 : videoStrategy e = none) (h2 : rawStrategy e = none) (h3 : exifStrategy e = none)
    (hf : e.fstat = some (c, m)) :
    get_file_date e now = fromtimestamp (Nat.min c m) := by
  rw [get_file_date_chain e now, h1, h2, h3, hf]
  rfl

/-- C5, witness: a png with stat times 100 and 50 resolves to timestamp 50. -/
theorem c5_witness :
    videoStrategy exPng = none ∧ rawStrategy exPng = none ∧ exifStrategy exPng = none ∧
    exPng.fstat = some (100, 50) ∧
    get_file_date exPng ⟨2024, 1, 1, 0, 0, 0⟩ = fromtimestamp 50 :=
  ⟨by decide, by decide, by decide, by decide, by
    have h := c5_fs_fallback_min exPng ⟨2024, 1, 1, 0, 0, 0⟩ 100 50
      (by decide) (by decide) (by decide) (by decide)
    rw [h]
    decide⟩

/-- C9: the Content Identifier depends only on the byte content (identical
bytes give identical fingerprints whatever the path or filename), and it reads
the content as a chunk sequence that concatenates back to the full content,
every chunk nonempty and at most 4096 bytes, every chunk but the last exactly
4096 bytes. -/
theorem c9_hash_content_determinism (e1 e2 : FileEntry) (h : e1.content = e2.content) :
    get_file_hash e1 = get_file_hash e2 ∧
    (readChunks e1.content.length e1.content).flatten = e1.content ∧
    (∀ ch ∈ readChunks e1.content.length e1.content, 0 < ch.length ∧ ch.length ≤ 4096) ∧
    (∀ pre ch post, readChunks e1.content.length e1.content = pre ++ ch :: post →
      post ≠ [] → ch.length = 4096) :=
  ⟨get_file_hash_content e1 e2 h, readChunks_flatten _ _ le_rfl,
   fun ch hch => readChunks_sizes _ _ ch hch,
   fun pre ch post hh hp => readChunks_full _ _ pre ch post hh hp⟩

/-- C9, witness: two files with the same bytes under different names and
directories hash identically. -/
theorem c9_witness :
    exJpgA.content = exJpgB.content ∧ exJpgA.filename ≠ exJpgB.filename ∧
    get_file_hash exJpgA = get_file_hash exJpgB :=
  ⟨by decide, by decide, (c9_hash_content_determinism exJpgA exJpgB (by decide)).1⟩

/-- C7: a recognised media file bumps `total_files` and exactly one category
counter (RAW first, then video, else image); a non-media file changes nothing;
and along every prefix of the walk `total_files` equals the sum of the three
category counters (duplicate and erroring files included, since counting
precedes the duplicate check and the hash read). -/
theorem c7_counters (cfg : Config) (st : OrgState) (e : FileEntry)
    (dest0 : List (Str × DestFile)) (xs : List FileEntry) :
    (is_media_file e.filename = false → stepFile cfg st e = st) ∧
    (is_media_file e.filename = true →
      (stepFile cfg st e).stats.total_files = st.stats.total_files + 1 ∧
      (memb (lowerStr (splitext e.filename).2) get_raw_extensions = true →
        (stepFile cfg st e).stats.raw_files = st.stats.raw_files + 1 ∧
        (stepFile cfg st e).stats.video_files = st.stats.video_files ∧
        (stepFile cfg st e).stats.image_files = st.stats.image_files) ∧
      (memb (lowerStr (splitext e.filename).2) get_raw_extensions = false →
       memb (lowerStr (splitext e.filename).2) get_video_extensions = true →
        (stepFile cfg st e).stats.raw_files = st.stats.raw_files ∧
        (stepFile cfg st e).stats.video_files = st.stats.video_files + 1 ∧
        (stepFile cfg st e).stats.image_files = st.stats.image_files) ∧
      (memb (lowerStr (splitext e.filename).2) get_raw_extensions = false →
       memb (lowerStr (splitext e.filename).2) get_video_extensions = false →
        (stepFile cfg st e).stats.raw_files = st.stats.raw_files ∧
        (stepFile cfg st e).stats.video_files = st.stats.video_files ∧
        (stepFile cfg st e).stats.image_files = st.stats.image_files + 1)) ∧
    (organize_media cfg dest0 xs).stats.total_files =
      (organize_media cfg dest0 xs).stats.raw_files +
      (organize_media cfg dest0 xs).stats.video_files +
      (organize_media cfg dest0 xs).stats.image_files := by
  refine ⟨stepFile_nonmedia cfg st e, ?_, organize_counts_inv cfg dest0 xs⟩
  intro hm
  obtain ⟨h1, h2, h3, h4⟩ := stepFile_counts_media cfg st e hm
  obtain ⟨hc1, _, _, _, hraw, hvid, himg⟩ := countFile_counts st e
  refine ⟨by rw [h1, hc1], ?_, ?_, ?_⟩
  · intro hr
    obtain ⟨i1, i2, i3⟩ := hraw hr
    exact ⟨by rw [h2, i1], by rw [h3, i2], by rw [h4, i3]⟩
  · intro hr hv
    obtain ⟨i1, i2, i3⟩ := hvid hr hv
    exact ⟨by rw [h2, i1], by rw [h3, i2], by rw [h4, i3]⟩
  · intro hr hv
    obtain ⟨i1, i2, i3⟩ := himg hr hv
    exact ⟨by rw [h2, i1], by rw [h3, i2], by rw [h4, i3]⟩

/-- C7, witness: at a concrete state, a jpg bumps `total_files` and
`image_files`, and the invariant holds after a two-file run. -/
theorem c7_witness :
    is_media_file exJpgA.filename = true ∧
    (stepFile exCfgCopy (initState exCfgCopy []) exJpgA).stats.total_files =
      (initState exCfgCopy []).stats.total_files + 1 ∧
    (stepFile exCfgCopy (initState exCfgCopy []) exJpgA).stats.image_files =
      (initState exCfgCopy []).stats.image_files + 1 ∧
    (organize_media exCfgCopy [] [exJpgA, exJpgB]).stats.total_files =
      (organize_media exCfgCopy [] [exJpgA, exJpgB]).stats.raw_files +
      (organize_media exCfgCopy [] [exJpgA, exJpgB]).stats.video_files +
      (organize_media exCfgCopy [] [exJpgA, exJpgB]).stats.image_files := by
  have h := c7_counters exCfgCopy (initState exCfgCopy []) exJpgA [] [exJpgA, exJpgB]
  have hm := h.2.1 (by decide)
  exact ⟨by decide, hm.1, ((hm.2.2.2) (by decide) (by decide)).2.2, h.2.2⟩

/-- C8: the walk loop catches every per-file exception at the per-file
boundary: a successful body becomes the next state with `errors` untouched, a
raising body becomes its state-at-raise with `errors` incremented by exactly
one, and in both cases the fold continues with the remaining files. -/
theorem c8_error_isolation (cfg : Config) (st : OrgState) (e : FileEntry)
    (dest0 : List (Str × DestFile)) (xs ys : List FileEntry) :
    (∀ s, processEntry cfg st e = .ok s →
      stepFile cfg st e = s ∧ s.stats.errors = st.stats.errors) ∧
    (∀ s, processEntry cfg st e = .error s →
      stepFile cfg st e = { s with stats := { s.stats with errors := s.stats.errors + 1 } } ∧
      s.stats.errors = st.stats.errors) ∧
    organize_media cfg dest0 (xs ++ e :: ys) =
      ys.foldl (stepFile cfg) (stepFile cfg (organize_media cfg dest0 xs) e) := by
  obtain ⟨hok, herr⟩ := processEntry_errors cfg st e
  refine ⟨?_, ?_, ?_⟩
  · intro s h
    refine ⟨?_, hok s h⟩
    unfold stepFile
    rw [h]
  · intro s h
    refine ⟨?_, herr s h⟩
    unfold stepFile
    rw [h]
  · unfold organize_media
    rw [List.foldl_append]
    rfl

/-- C8, witness: a file whose content cannot be hashed raises; the step counts
one error (on top of the already-bumped counters) and a following file is still
processed. -/
theorem c8_witness :
    processEntry exCfgCopy (initState exCfgCopy []) exBadHash =
      .error (countFile (initState exCfgCopy []) exBadHash) ∧
    stepFile exCfgCopy (initState exCfgCopy []) exBadHash =
      { countFile (initState exCfgCopy []) exBadHash with
        stats := { (countFile (initState exCfgCopy []) exBadHash).stats with
                   errors := (countFile (initState exCfgCopy []) exBadHash).stats.errors + 1 } } ∧
    (countFile (initState exCfgCopy []) exBadHash).stats.errors =
      (initState exCfgCopy []).stats.errors ∧
    organize_media exCfgCopy [] ([] ++ exBadHash :: [exJpgA]) =
      [exJpgA].foldl (stepFile exCfgCopy)
        (stepFile exCfgCopy (organize_media exCfgCopy [] []) exBadHash) := by
  have h := c8_error_isolation exCfgCopy (initState exCfgCopy []) exBadHash [] [] [exJpgA]
  have hpe : processEntry exCfgCopy (initState exCfgCopy []) exBadHash =
      .error (countFile (initState exCfgCopy []) exBadHash) := by rfl
  obtain ⟨hstep, herr⟩ := h.2.1 _ hpe
  exact ⟨hpe, hstep, herr, h.2.2⟩

/-- C6: a non-duplicate media file is placed under
`root/year/zero-padded-month/zero-padded-day` (directory creation is
idempotent and the directory is recorded), keeping the original filename when
no file of that name exists there, and otherwise taking the first free
candidate among `stem_1.ext`, `stem_2.ext`, … in increasing order. -/
theorem c6_placement (cfg : Config) (st : OrgState) (e : FileEntry)
    (hm : is_media_file e.filename = true) (hh : e.hash_ok = true)
    (hfresh : alookup st.processed (get_file_hash e) = none)
    (ht : e.transfer_ok = true) (hs : e.sidecar_ok = true) :
    destDirFor cfg (get_file_date e cfg.now) =
      pathJoin (pathJoin (pathJoin cfg.destRoot (natToDec (get_file_date e cfg.now).year))
        (pad2 (get_file_date e cfg.now).month)) (pad2 (get_file_date e cfg.now).day) ∧
    destDirFor cfg (get_file_date e cfg.now) ∈ (stepFile cfg st e).destDirs ∧
    mkdirs (mkdirs st.destDirs (destDirFor cfg (get_file_date e cfg.now)))
        (destDirFor cfg (get_file_date e cfg.now)) =
      mkdirs st.destDirs (destDirFor cfg (get_file_date e cfg.now)) ∧
    alookup (stepFile cfg st e).dest (plannedPath cfg st e) = some (.media e.content) ∧
    ((alookup st.dest
        (pathJoin (destDirFor cfg (get_file_date e cfg.now)) e.filename)).isSome = false →
      probeName cfg st e = e.filename) ∧
    ((alookup st.dest
        (pathJoin (destDirFor cfg (get_file_date e cfg.now)) e.filename)).isSome = true →
      ∃ k, 1 ≤ k ∧
        (alookup st.dest (pathJoin (destDirFor cfg (get_file_date e cfg.now))
          (cand (splitext e.filename).1 (splitext e.filename).2 k))).isSome = false ∧
        (∀ j, 1 ≤ j → j < k →
          (alookup st.dest (pathJoin (destDirFor cfg (get_file_date e cfg.now))
            (cand (splitext e.filename).1 (splitext e.filename).2 j))).isSome = true) ∧
        probeName cfg st e = cand (splitext e.filename).1 (splitext e.filename).2 k) := by
  have hstep := stepFile_place2 cfg st e hm hh hfresh ht (Or.inl hs)
  refine ⟨rfl, ?_, mkdirs_idem _ _, ?_, ?_, ?_⟩
  · rw [hstep, placeResult_destDirs, countFile_destDirs]
    exact mem_mkdirs_self _ _
  · rw [hstep]
    have h := placeResult_media_placed cfg (countFile st e) e (get_file_hash e)
    rw [plannedPath_countFile] at h
    exact h
  · intro hfree
    exact (newName_spec st.dest (destDirFor cfg (get_file_date e cfg.now))
      (splitext e.filename).1 (splitext e.filename).2 e.filename).1 hfree
  · intro htaken
    exact (newName_spec st.dest (destDirFor cfg (get_file_date e cfg.now))
      (splitext e.filename).1 (splitext e.filename).2 e.filename).2 htaken

/-- C6, witness: with `a.jpg` and `a_1.jpg` already present in the date
directory, the file is placed as `a_2.jpg`. -/
theorem c6_witness :
    is_media_file exJpgA.filename = true ∧
    (alookup exStBusy.dest
      (pathJoin (destDirFor exCfgCopy (get_file_date exJpgA exCfgCopy.now))
        exJpgA.filename)).isSome = true ∧
    (∃ k, 1 ≤ k ∧
      (alookup exStBusy.dest (pathJoin (destDirFor exCfgCopy (get_file_date exJpgA exCfgCopy.now))
        (cand (splitext exJpgA.filename).1 (splitext exJpgA.filename).2 k))).isSome = false ∧
      (∀ j, 1 ≤ j → j < k →
        (alookup exStBusy.dest
          (pathJoin (destDirFor exCfgCopy (get_file_date exJpgA exCfgCopy.now))
            (cand (splitext exJpgA.filename).1 (splitext exJpgA.filename).2 j))).isSome = true) ∧
      probeName exCfgCopy exStBusy exJpgA =
        cand (splitext exJpgA.filename).1 (splitext exJpgA.filename).2 k) ∧
    probeName exCfgCopy exStBusy exJpgA = "a_2.jpg".data ∧
    alookup (stepFile exCfgCopy exStBusy exJpgA).dest (plannedPath exCfgCopy exStBusy exJpgA) =
      some (.media exJpgA.content) := by
  have h := c6_placement exCfgCopy exStBusy exJpgA (by decide) (by decide) (by decide)
    (by decide) (by decide)
  exact ⟨by decide, by decide, h.2.2.2.2.2 (by decide), by decide, h.2.2.2.1⟩

/-- C10: whenever a sidecar is written (copy mode, video extension, metadata
available), its name is derived from the original stem — not from the
collision-resolved filename — and it overwrites whatever was at that path. -/
theorem c10_sidecar_stem (cfg : Config) (st : OrgState) (e : FileEntry)
    (hmove : cfg.move = false)
    (hm : is_media_file e.filename = true) (hh : e.hash_ok = true)
    (hfresh : alookup st.processed (get_file_hash e) = none)
    (ht : e.transfer_ok = true) (hs : e.sidecar_ok = true)
    (hvid : memb (splitext e.filename).2 get_video_extensions = true)
    (hsrc : memb (pathJoin e.root e.filename) st.removedSrc = false)
    (hinfo : get_video_info e.video_meta ≠ []) :
    infoPath cfg e = pathJoin (destDirFor cfg (get_file_date e cfg.now))
      ((splitext e.filename).1 ++ "_info.txt".data) ∧
    alookup (stepFile cfg st e).dest (infoPath cfg e) =
      some (.text (render_info (get_video_info e.video_meta))) ∧
    alookup (stepFile cfg st e).dest (plannedPath cfg st e) = some (.media e.content) := by
  have hsc : sidecarInfo cfg st e = get_video_info e.video_meta := by
    unfold sidecarInfo
    rw [if_pos hvid, hmove]
    simp only [Bool.false_eq_true, if_false, ite_false]
    rw [hsrc]
    simp
  have hsc2 : sidecarInfo cfg (countFile st e) e = get_video_info e.video_meta := by
    rw [sidecarInfo_countFile]
    exact hsc
  have hstep := stepFile_place2 cfg st e hm hh hfresh ht (Or.inl hs)
  refine ⟨rfl, ?_, ?_⟩
  · rw [hstep]
    have h := placeResult_sidecar_written cfg (countFile st e) e (get_file_hash e)
      (by rw [hsc2]; exact hinfo)
    rw [hsc2] at h
    exact h
  · rw [hstep]
    have h := placeResult_media_placed cfg (countFile st e) e (get_file_hash e)
    rw [plannedPath_countFile] at h
    exact h

/-- C10, witness: `clip.mp4` collides and is placed as `clip_1.mp4`, yet the
sidecar goes to `clip_info.txt`, replacing the older sidecar there. -/
theorem c10_witness :
    alookup exStClip.dest (infoPath exCfgCopy exVid) = some (.text "old".data) ∧
    probeName exCfgCopy exStClip exVid = "clip_1.mp4".data ∧
    alookup (stepFile exCfgCopy exStClip exVid).dest (infoPath exCfgCopy exVid) =
      some (.text (render_info (get_video_info exVid.video_meta))) ∧
    render_info (get_video_info exVid.video_meta) ≠ "old".data ∧
    alookup (stepFile exCfgCopy exStClip exVid).dest (plannedPath exCfgCopy exStClip exVid) =
      some (.media exVid.content) := by
  have h := c10_sidecar_stem exCfgCopy exStClip exVid (by decide) (by decide) (by decide)
    (by decide) (by decide) (by decide) (by decide) (by decide) (by decide)
  exact ⟨by decide, by decide, h.2.1, by decide, h.2.2⟩

/-- C3: the first of two identical-content media files is placed and its
fingerprint registered; the registration survives the files processed in
between; and the later identical file is counted as a duplicate with
`space_saved` grown by exactly its byte size, while its processing leaves the
destination filesystem, the directory set, the removed-sources set and the
hash map untouched — so exactly one of the pair is placed. -/
theorem c3_dedup (cfg : Config) (dest0 : List (Str × DestFile)) (xs : List FileEntry)
    (e1 : FileEntry) (ys : List FileEntry) (e2 : FileEntry) (stA stB stC : OrgState)
    (hA : stA = organize_media cfg dest0 xs)
    (hB : stB = stepFile cfg stA e1)
    (hC : stC = ys.foldl (stepFile cfg) stB)
    (hm1 : is_media_file e1.filename = true) (hh1 : e1.hash_ok = true)
    (ht1 : e1.transfer_ok = true) (hs1 : e1.sidecar_ok = true)
    (hfresh : alookup stA.processed (get_file_hash e1) = none)
    (hm2 : is_media_file e2.filename = true) (hh2 : e2.hash_ok = true)
    (hc : e2.content = e1.content) :
    alookup stB.processed (get_file_hash e1) =
      some (plannedPath cfg (countFile stA e1) e1) ∧
    alookup stB.dest (plannedPath cfg (countFile stA e1) e1) = some (.media e1.content) ∧
    alookup stC.processed (get_file_hash e2) =
      some (plannedPath cfg (countFile stA e1) e1) ∧
    (stepFile cfg stC e2).stats.duplicates = stC.stats.duplicates + 1 ∧
    (stepFile cfg stC e2).stats.space_saved = stC.stats.space_saved + e2.content.length ∧
    (stepFile cfg stC e2).stats.errors = stC.stats.errors ∧
    (stepFile cfg stC e2).processed = stC.processed ∧
    (stepFile cfg stC e2).dest = stC.dest ∧
    (stepFile cfg stC e2).destDirs = stC.destDirs ∧
    (stepFile cfg stC e2).removedSrc = stC.removedSrc ∧
    organize_media cfg dest0 (xs ++ e1 :: (ys ++ [e2])) = stepFile cfg stC e2 := by
  subst hA
  subst hB
  subst hC
  have hstep1 := stepFile_place2 cfg (organize_media cfg dest0 xs) e1 hm1 hh1 hfresh ht1
    (Or.inl hs1)
  have hps : alookup (stepFile cfg (organize_media cfg dest0 xs) e1).processed
      (get_file_hash e1) =
      some (plannedPath cfg (countFile (organize_media cfg dest0 xs) e1) e1) := by
    rw [hstep1, placeResult_processed, alookup_cons, if_pos rfl]
  have hdest1 : alookup (stepFile cfg (organize_media cfg dest0 xs) e1).dest
      (plannedPath cfg (countFile (organize_media cfg dest0 xs) e1) e1) =
      some (.media e1.content) := by
    rw [hstep1]
    exact placeResult_media_placed cfg _ e1 (get_file_hash e1)
  have hpsC := foldl_processed_mono cfg ys _ _ _ hps
  have hhash : get_file_hash e2 = get_file_hash e1 := get_file_hash_content e2 e1 hc
  have hpsC2 : alookup (ys.foldl (stepFile cfg)
      (stepFile cfg (organize_media cfg dest0 xs) e1)).processed (get_file_hash e2) =
      some (plannedPath cfg (countFile (organize_media cfg dest0 xs) e1) e1) := by
    rw [hhash]
    exact hpsC
  have hdup : (alookup (ys.foldl (stepFile cfg)
      (stepFile cfg (organize_media cfg dest0 xs) e1)).processed
      (get_file_hash e2)).isSome = true := by
    rw [hpsC2]
    rfl
  have hstep2 := stepFile_dup cfg _ e2 hm2 hh2 hdup
  obtain ⟨hd1, hd2, _, _, _, _, hd7, hd8, hd9, hd10, hd11⟩ :=
    dupFile_spec (countFile (ys.foldl (stepFile cfg)
      (stepFile cfg (organize_media cfg dest0 xs) e1)) e2) e2
  obtain ⟨_, hcd, hce, hcs, _, _, _⟩ :=
    countFile_counts (ys.foldl (stepFile cfg)
      (stepFile cfg (organize_media cfg dest0 xs) e1)) e2
  refine ⟨hps, hdest1, hpsC2, ?_, ?_, ?_, ?_, ?_, ?_, ?_, ?_⟩
  · rw [hstep2, hd1, hcd]
  · rw [hstep2, hd2, hcs]
  · rw [hstep2, hd7, hce]
  · rw [hstep2, hd8, countFile_processed]
  · rw [hstep2, hd9, countFile_dest]
  · rw [hstep2, hd10, countFile_destDirs]
  · rw [hstep2, hd11, countFile_removedSrc]
  · unfold organize_media
    rw [List.foldl_append, List.foldl_cons, List.foldl_append, List.foldl_cons, List.foldl_nil]

/-- C3, witness: a two-file run over byte-identical `a.jpg` and `b.jpg`. -/
theorem c3_witness :
    (stepFile exCfgCopy (stepFile exCfgCopy (initState exCfgCopy []) exJpgA) exJpgB).stats.duplicates =
      (stepFile exCfgCopy (initState exCfgCopy []) exJpgA).stats.duplicates + 1 ∧
    (stepFile exCfgCopy (stepFile exCfgCopy (initState exCfgCopy []) exJpgA) exJpgB).dest =
      (stepFile exCfgCopy (initState exCfgCopy []) exJpgA).dest ∧
    organize_media exCfgCopy [] ([] ++ exJpgA :: ([] ++ [exJpgB])) =
      stepFile exCfgCopy (stepFile exCfgCopy (initState exCfgCopy []) exJpgA) exJpgB := by
  have h := c3_dedup exCfgCopy [] [] exJpgA [] exJpgB (initState exCfgCopy [])
    (stepFile exCfgCopy (initState exCfgCopy []) exJpgA)
    (stepFile exCfgCopy (initState exCfgCopy []) exJpgA)
    rfl rfl rfl (by decide) (by decide) (by decide) (by decide) (by decide)
    (by decide) (by decide) (by decide)
  exact ⟨h.2.2.2.1, h.2.2.2.2.2.2.2.1, h.2.2.2.2.2.2.2.2.2.2⟩

/-- C1, code bug: the claim (and the spec) say every non-duplicate video gets a
sidecar when metadata fields are available, regardless of extension case and of
copy/move mode.  The code violates both qualifications: line 294 rebinds
`extension` without lower-casing, so an upper-case-extension video (counted as
a video by the lower-cased check at line 263) skips the sidecar branch; and in
move mode `get_video_info(source_path)` runs after `shutil.move` has removed
the source, so parsing always fails and no sidecar is ever written.  The final
conjunct shows the sidecar does appear in the lower-case, copy-mode run, so
the omissions are not a modelling artefact. -/
theorem c1_video_sidecar_code_bug :
    get_video_info exVid.video_meta ≠ [] ∧
    ((organize_media exCfgMove [] [exVid]).stats.video_files = 1 ∧
     alookup (organize_media exCfgMove [] [exVid]).dest "d/2023/05/10/clip.mp4".data =
       some (.media [1]) ∧
     alookup (organize_media exCfgMove [] [exVid]).dest "d/2023/05/10/clip_info.txt".data =
       none) ∧
    ((organize_media exCfgCopy [] [exVidUpper]).stats.video_files = 1 ∧
     alookup (organize_media exCfgCopy [] [exVidUpper]).dest "d/2023/05/10/clip_info.txt".data =
       none) ∧
    alookup (organize_media exCfgCopy [] [exVid]).dest "d/2023/05/10/clip_info.txt".data =
      some (.text (render_info (get_video_info exVid.video_meta))) := by
  decide

end MediaOrganizer
